import Mathlib

/-!
Verification development for the `brukeropus` OPUS-file decoding engine.

This file gives a shallow embedding, in Lean 4, of the parsing and pairing
layer of `brukeropus/file` (`parse.py`, `block.py`, `data.py`, `params.py`,
`directory.py`) and proves properties of that embedding.

Modelling conventions:
* A byte buffer is a `List Nat`, each element standing for one byte
  (values are produced by the encoders below, which always emit values < 256).
* Machine integers are decoded into `Int` with explicit two's-complement
  arithmetic (`toSigned16`, `toSigned32`); no bit-vector types are used.
* Python exceptions are modelled with `Except Unit` (an uncaught exception)
  or `Option` (a caught exception); a `while` loop whose progress depends on
  parsed data is modelled with an explicit fuel parameter, `none` meaning
  the fuel ran out.
* IEEE-754 values that the source merely moves around (never computes with)
  are carried as their raw little-endian bit patterns (`Nat`).
* Numeric parameter values in the pairing / data layer are modelled as `Int`:
  the claims proved about that layer concern control flow, lengths and
  element selection, not fractional arithmetic.
-/

/-- Reads one byte (list element) at position `i`, `none` when out of range. -/
def byteAt (b : List Nat) (i : Nat) : Option Nat :=
  b.get? i

/-- Two's-complement reading of a 16-bit unsigned value. -/
def toSigned16 (u : Nat) : Int :=
  if u < 2 ^ 15 then (u : Int) else (u : Int) - 2 ^ 16

/-- Two's-complement reading of a 32-bit unsigned value. -/
def toSigned32 (u : Nat) : Int :=
  if u < 2 ^ 31 then (u : Int) else (u : Int) - 2 ^ 32

/-- Little-endian unsigned 16-bit read at `i`; `none` when fewer than 2 bytes remain
(matching a `struct.unpack_from` failure). -/
def readU16 (b : List Nat) (i : Nat) : Option Nat :=
  match byteAt b i, byteAt b (i + 1) with
  | some b0, some b1 => some (b0 + 256 * b1)
  | _, _ => none

/-- Little-endian signed 16-bit read at `i` (Python format `<h`). -/
def readI16 (b : List Nat) (i : Nat) : Option Int :=
  (readU16 b i).map toSigned16

/-- Little-endian unsigned 32-bit read at `i`. -/
def readU32 (b : List Nat) (i : Nat) : Option Nat :=
  match byteAt b i, byteAt b (i + 1), byteAt b (i + 2), byteAt b (i + 3) with
  | some b0, some b1, some b2, some b3 =>
      some (b0 + 256 * b1 + 2 ^ 16 * b2 + 2 ^ 24 * b3)
  | _, _, _, _ => none

/-- Little-endian signed 32-bit read at `i` (Python format `<i`). -/
def readI32 (b : List Nat) (i : Nat) : Option Int :=
  (readU32 b i).map toSigned32

/-- Little-endian 64-bit read at `i`; used for the raw bit pattern of a
Python `<d` (IEEE-754 double) value, which the source never computes with. -/
def readU64 (b : List Nat) (i : Nat) : Option Nat :=
  match readU32 b i, readU32 b (i + 4) with
  | some lo, some hi => some (lo + 2 ^ 32 * hi)
  | _, _ => none

/-- Little-endian two's-complement encoding of an `Int` into 4 bytes. -/
def encodeI32 (x : Int) : List Nat :=
  let u : Nat := (x % (2 ^ 32 : Int)).toNat
  [u % 256, u / 256 % 256, u / 2 ^ 16 % 256, u / 2 ^ 24 % 256]

/-! ## Type-code decoder (`parse.get_block_type`) -/

/-- Six-integer block type tuple, mirroring the tuples built by
`get_block_type` and wrapped by `block.BlockType`. -/
structure BType where
  t0 : Nat
  t1 : Nat
  t2 : Nat
  t3 : Nat
  t4 : Nat
  t5 : Nat
deriving DecidableEq, Repr

/-- Embedding of `parse.get_block_type`.  The source formats `type_int` as a
zero-padded binary string (`format(type_int, '#034b')`, 32 digits) and slices
the digit string from the least-significant end; slicing digits
`[-hi:-lo]` of the zero-padded binary string equals `n / 2 ^ lo % 2 ^ (hi - lo)`.
Field widths from the least-significant end: 2, 2, 6, 7, 2, 3 bits. -/
def get_block_type (type_int : Nat) : BType :=
  ⟨type_int % 2 ^ 2,
   type_int / 2 ^ 2 % 2 ^ 2,
   type_int / 2 ^ 4 % 2 ^ 6,
   type_int / 2 ^ 10 % 2 ^ 7,
   type_int / 2 ^ 17 % 2 ^ 2,
   type_int / 2 ^ 19 % 2 ^ 3⟩

/-- Python applies `format(type_int, ...)` to the `int` it unpacked with
signed format `<i`; for a negative value the formatted string is the sign
followed by the binary digits of the magnitude, so the sliced fields are the
bit fields of the absolute value. -/
def get_block_type_of_int (type_int : Int) : BType :=
  get_block_type type_int.natAbs

/-- Re-packs a six-field block type at the bit positions used by
`get_block_type` (widths 2, 2, 6, 7, 2, 3 from the least-significant end).
This is the encoder direction of the spec's bit-slicing round-trip property. -/
def encode_block_type (t : BType) : Nat :=
  t.t0 + 2 ^ 2 * t.t1 + 2 ^ 4 * t.t2 + 2 ^ 10 * t.t3 + 2 ^ 17 * t.t4 + 2 ^ 19 * t.t5

/-! ## Block classifier predicates (`block.FileBlock`)

The predicates depend only on the six-integer type tuple, so they are defined
on `BType` directly.  Python tuple comparisons become component-wise equality. -/

/-- `FileBlock.is_data_status`: the block is a data status parameter block. -/
def is_data_status (t : BType) : Bool :=
  t.t2 == 1

/-- `FileBlock.is_rf_param`: parameter block of the reference measurement. -/
def is_rf_param (t : BType) : Bool :=
  t.t2 > 1 && t.t1 == 2

/-- `FileBlock.is_param`: any parameter block. -/
def is_param (t : BType) : Bool :=
  t.t2 > 0 || t == ⟨0, 0, 0, 0, 0, 1⟩

/-- `FileBlock.is_directory`: the directory block. -/
def is_directory (t : BType) : Bool :=
  t == ⟨0, 0, 0, 13, 0, 0⟩

/-- `FileBlock.is_file_log`: the file log (history) block. -/
def is_file_log (t : BType) : Bool :=
  t == ⟨0, 0, 0, 0, 0, 5⟩

/-- `FileBlock.is_report`: a test report block. -/
def is_report (t : BType) : Bool :=
  (t == ⟨0, 0, 0, 0, 0, 2⟩ || t == ⟨0, 0, 0, 0, 0, 3⟩ || t == ⟨0, 0, 0, 0, 0, 4⟩)
    || (t.t2 == 0 && !(t.t3 == 0 || t.t3 == 13) && t.t5 == 5)

/-- `FileBlock.is_data`: a 1-D data block (not a data series). -/
def is_data (t : BType) : Bool :=
  t.t2 == 0 && !(t.t3 == 0 || t.t3 == 13) && !(t.t5 == 2 || t.t5 == 5)

/-- `FileBlock.is_data_series`: a data series (3-D data) block. -/
def is_data_series (t : BType) : Bool :=
  t.t2 == 0 && !(t.t3 == 0 || t.t3 == 13) && t.t5 == 2

/-- `FileBlock.is_compact_data`: a compact 1-D data block (data stored at the
tail of an oversized buffer). -/
def is_compact_data (t : BType) : Bool :=
  is_data t && t.t5 == 4

/-- The parser kinds dispatched by `FileBlock.get_parser`. -/
inductive ParserKind
  | directory
  | text
  | params
  | report
  | dataSeries
  | data
deriving DecidableEq, Repr

/-- Embedding of the dispatch order of `FileBlock.get_parser`:
directory, file log, parameter, report, data series, data; `none` when no
predicate matches. -/
def parser_choice (t : BType) : Option ParserKind :=
  if is_directory t then some .directory
  else if is_file_log t then some .text
  else if is_param t then some .params
  else if is_report t then some .report
  else if is_data_series t then some .dataSeries
  else if is_data t then some .data
  else none

/-- Number of the six `get_parser` classifier predicates that hold at `t`. -/
def classifier_true_count (t : BType) : Nat :=
  (is_directory t).toNat + (is_file_log t).toNat + (is_param t).toNat
    + (is_report t).toNat + (is_data t).toNat + (is_data_series t).toNat

/-! ## Theorems for claim C3 -/

/-- Helper: the six decoded fields, written with explicit divisions, packed
back at their bit positions recover the low 22 bits. -/
theorem encode_decode_bits (n : Nat) :
    n % 4 + 4 * (n / 4 % 4) + 16 * (n / 16 % 64) + 1024 * (n / 1024 % 128)
      + 131072 * (n / 131072 % 4) + 524288 * (n / 524288 % 8) = n % 4194304 := by
  omega

/-- C3: for every valid 32-bit non-negative `typeInt`, `get_block_type` slices
the value into bit-fields of widths 2, 2, 6, 7, 2, 3 from the least-significant
end, and re-packing the six fields at those bit positions recovers the
original integer's low 22 bits. -/
theorem get_block_type_roundtrip (n : Nat) (h : n < 2 ^ 32) :
    get_block_type n
        = ⟨n % 2 ^ 2, n / 2 ^ 2 % 2 ^ 2, n / 2 ^ 4 % 2 ^ 6, n / 2 ^ 10 % 2 ^ 7,
           n / 2 ^ 17 % 2 ^ 2, n / 2 ^ 19 % 2 ^ 3⟩
      ∧ encode_block_type (get_block_type n) = n % 2 ^ 22 := by
  refine ⟨rfl, ?_⟩
  have := encode_decode_bits n
  simpa [encode_block_type, get_block_type] using this

/-- Witness for C3 at the concrete input 123456789. -/
theorem get_block_type_roundtrip_witness :
    get_block_type 123456789
        = ⟨123456789 % 2 ^ 2, 123456789 / 2 ^ 2 % 2 ^ 2, 123456789 / 2 ^ 4 % 2 ^ 6,
           123456789 / 2 ^ 10 % 2 ^ 7, 123456789 / 2 ^ 17 % 2 ^ 2, 123456789 / 2 ^ 19 % 2 ^ 3⟩
      ∧ encode_block_type (get_block_type 123456789) = 123456789 % 2 ^ 22 :=
  get_block_type_roundtrip 123456789 (by decide)

/-! ## Theorems for claim C10 -/

/-- Helper: the six classifier predicates dispatched by `get_parser` are
pairwise disjoint, stated as one conjunction of the 15 pairs. -/
theorem classifiers_pairwise_disjoint (t : BType) :
    ¬(is_directory t = true ∧ is_file_log t = true)
      ∧ ¬(is_directory t = true ∧ is_param t = true)
      ∧ ¬(is_directory t = true ∧ is_report t = true)
      ∧ ¬(is_directory t = true ∧ is_data t = true)
      ∧ ¬(is_directory t = true ∧ is_data_series t = true)
      ∧ ¬(is_file_log t = true ∧ is_param t = true)
      ∧ ¬(is_file_log t = true ∧ is_report t = true)
      ∧ ¬(is_file_log t = true ∧ is_data t = true)
      ∧ ¬(is_file_log t = true ∧ is_data_series t = true)
      ∧ ¬(is_param t = true ∧ is_report t = true)
      ∧ ¬(is_param t = true ∧ is_data t = true)
      ∧ ¬(is_param t = true ∧ is_data_series t = true)
      ∧ ¬(is_report t = true ∧ is_data t = true)
      ∧ ¬(is_report t = true ∧ is_data_series t = true)
      ∧ ¬(is_data t = true ∧ is_data_series t = true) := by
  obtain ⟨a, b, c, d, e, f⟩ := t
  simp only [is_directory, is_file_log, is_param, is_report, is_data, is_data_series,
    beq_iff_eq, BType.mk.injEq, Bool.or_eq_true, Bool.and_eq_true, Bool.not_eq_true',
    Bool.or_eq_false_iff, beq_eq_false_iff_ne, ne_eq, decide_eq_true_eq]
  omega

/-- C10: for every six-integer block type tuple, at most one of the six
classifier predicates tested by `get_parser` (`is_directory`, `is_file_log`,
`is_param`, `is_report`, `is_data`, `is_data_series`) returns true, so the
parser dispatch is unambiguous and independent of the order of the tests. -/
theorem classifier_at_most_one (t : BType) : classifier_true_count t ≤ 1 := by
  have h := classifiers_pairwise_disjoint t
  unfold classifier_true_count
  cases h1 : is_directory t <;> cases h2 : is_file_log t <;> cases h3 : is_param t <;>
    cases h4 : is_report t <;> cases h5 : is_data t <;> cases h6 : is_data_series t <;>
    simp_all [Bool.toNat]

/-! ## Directory parsing (`parse.parse_directory`, `directory.FileDirectory`) -/

/-- Directory entry as produced by `parse_directory`: decoded block type,
size in bytes (`size_int * 4`), and start pointer. -/
structure DirEntry where
  btype : BType
  size : Int
  start : Int
deriving DecidableEq, Repr

/-- Embedding of `parse.parse_directory`.  The Python loop reads 12 bytes per
iteration (`struct.unpack_from('<3i', blockbytes, loc)`), so it is modelled by
structural recursion consuming 12 list elements at a time.  A nonempty tail of
fewer than 12 bytes makes `struct.unpack_from` raise `struct.error`, modelled
by `Except.error ()`; reaching the end of the buffer exactly, or an entry with
`start <= 0`, ends the scan normally. -/
def parse_directory : List Nat → Except Unit (List DirEntry)
  | [] => .ok []
  | t0 :: t1 :: t2 :: t3 :: s0 :: s1 :: s2 :: s3 :: p0 :: p1 :: p2 :: p3 :: rest =>
      let type_int := toSigned32 (t0 + 256 * t1 + 2 ^ 16 * t2 + 2 ^ 24 * t3)
      let size_int := toSigned32 (s0 + 256 * s1 + 2 ^ 16 * s2 + 2 ^ 24 * s3)
      let start := toSigned32 (p0 + 256 * p1 + 2 ^ 16 * p2 + 2 ^ 24 * p3)
      if 0 < start then
        match parse_directory rest with
        | .ok blocks => .ok (⟨get_block_type_of_int type_int, size_int * 4, start⟩ :: blocks)
        | .error e => .error e
      else .ok []
  | _ => .error ()

/-- Encodes one 12-byte directory entry `(typeInt, sizeWords, start)`. -/
def encodeDirEntry (e : Int × Int × Int) : List Nat :=
  encodeI32 e.1 ++ encodeI32 e.2.1 ++ encodeI32 e.2.2

/-- The in-range condition for an i32 value. -/
def i32InRange (x : Int) : Prop :=
  -(2 ^ 31) ≤ x ∧ x < 2 ^ 31

/-- The slice of the file bytes that `FileDirectory.__init__` hands to
`parse_directory`: it starts at the directory start pointer and is capped at
`max_blocks * 3 * 4` bytes. -/
def directory_slice (filebytes : List Nat) (start maxBlocks : Nat) : List Nat :=
  (filebytes.drop start).take (maxBlocks * 3 * 4)

/-- Helper: decoding the 4 little-endian bytes produced by `encodeI32`
recovers any in-range i32 value. -/
theorem toSigned32_encodeI32 (x : Int) (h1 : -(2 ^ 31) ≤ x) (h2 : x < 2 ^ 31) :
    toSigned32 ((x % (2 ^ 32 : Int)).toNat % 256
        + 256 * ((x % (2 ^ 32 : Int)).toNat / 256 % 256)
        + 2 ^ 16 * ((x % (2 ^ 32 : Int)).toNat / 2 ^ 16 % 256)
        + 2 ^ 24 * ((x % (2 ^ 32 : Int)).toNat / 2 ^ 24 % 256)) = x := by
  unfold toSigned32
  split <;> omega

/-- Helper: every buffer is empty, splits as a full 12-byte entry plus a rest,
or makes `parse_directory` fail. -/
theorem parse_directory_shape (b : List Nat) :
    b = []
      ∨ (∃ t0 t1 t2 t3 s0 s1 s2 s3 p0 p1 p2 p3 rest,
          b = t0 :: t1 :: t2 :: t3 :: s0 :: s1 :: s2 :: s3 :: p0 :: p1 :: p2 :: p3 :: rest)
      ∨ parse_directory b = .error () := by
  rcases b with _ | ⟨a0, _ | ⟨a1, _ | ⟨a2, _ | ⟨a3, _ | ⟨a4, _ | ⟨a5, _ | ⟨a6, _ | ⟨a7,
    _ | ⟨a8, _ | ⟨a9, _ | ⟨a10, _ | ⟨a11, rest⟩⟩⟩⟩⟩⟩⟩⟩⟩⟩⟩⟩
  · exact Or.inl rfl
  all_goals first
    | exact Or.inr (Or.inr rfl)
    | exact Or.inr (Or.inl ⟨a0, a1, a2, a3, a4, a5, a6, a7, a8, a9, a10, a11, rest, rfl⟩)

/-- Helper: `parse_directory` consumes 12 bytes per returned entry, so the
number of entries is at most `length / 12`; stated with an explicit bound for
induction. -/
theorem parse_directory_length_aux (n : Nat) :
    ∀ b r, b.length ≤ n → parse_directory b = .ok r → 12 * r.length ≤ b.length := by
  induction n with
  | zero =>
      intro b r hlen h
      rcases parse_directory_shape b with hb | ⟨t0, t1, t2, t3, s0, s1, s2, s3, p0, p1, p2, p3,
        rest, hb⟩ | hb
      · subst hb; cases h; simp
      · subst hb; simp at hlen
      · rw [hb] at h; cases h
  | succ n ih =>
      intro b r hlen h
      rcases parse_directory_shape b with hb | ⟨t0, t1, t2, t3, s0, s1, s2, s3, p0, p1, p2, p3,
        rest, hb⟩ | hb
      · subst hb; cases h; simp
      · subst hb
        simp only [parse_directory] at h
        split at h
        · cases hrec : parse_directory rest with
          | ok blocks =>
              rw [hrec] at h
              cases h
              have hr : rest.length ≤ n := by simp at hlen; omega
              have := ih rest blocks hr hrec
              simp only [List.length_cons]
              omega
          | error e => rw [hrec] at h; cases h
        · cases h; simp
      · rw [hb] at h; cases h

/-- Helper: the entry count of a successful directory scan is bounded by a
twelfth of the buffer length. -/
theorem parse_directory_length (b : List Nat) (r : List DirEntry)
    (h : parse_directory b = .ok r) : 12 * r.length ≤ b.length :=
  parse_directory_length_aux b.length b r le_rfl h

/-- Helper: scanning a well-formed encoded directory (entries with positive
start pointers, then a sentinel entry with `start <= 0`, then arbitrary
trailing bytes) returns exactly the encoded entries, each with byte size
`sizeWords * 4`, and never reads past the sentinel. -/
theorem parse_directory_encoded (es : List (Int × Int × Int)) (sent : Int × Int × Int)
    (g : List Nat)
    (hes : ∀ e ∈ es, i32InRange e.1 ∧ i32InRange e.2.1 ∧ 0 < e.2.2 ∧ e.2.2 < 2 ^ 31)
    (hsent : i32InRange sent.1 ∧ i32InRange sent.2.1 ∧ -(2 ^ 31) ≤ sent.2.2 ∧ sent.2.2 ≤ 0) :
    parse_directory ((es.map encodeDirEntry).flatten ++ (encodeDirEntry sent ++ g))
      = .ok (es.map fun e => ⟨get_block_type_of_int e.1, e.2.1 * 4, e.2.2⟩) := by
  induction es with
  | nil =>
      obtain ⟨_, _, hs5, hs6⟩ := hsent
      simp only [List.map_nil, List.flatten_nil, List.nil_append]
      simp only [encodeDirEntry, encodeI32, List.cons_append, List.nil_append,
        List.append_assoc]
      simp only [parse_directory]
      rw [toSigned32_encodeI32 sent.2.2 hs5 (by omega)]
      rw [if_neg (by omega)]
  | cons e es ih =>
      obtain ⟨⟨he1, he2⟩, ⟨he3, he4⟩, he5, he6⟩ := hes e (List.mem_cons_self e es)
      have hes' : ∀ x ∈ es, i32InRange x.1 ∧ i32InRange x.2.1 ∧ 0 < x.2.2 ∧ x.2.2 < 2 ^ 31 :=
        fun x hx => hes x (List.mem_cons_of_mem e hx)
      simp only [List.map_cons, List.flatten_cons, encodeDirEntry, encodeI32,
        List.cons_append, List.nil_append, List.append_assoc]
      simp only [parse_directory]
      rw [toSigned32_encodeI32 e.1 he1 he2, toSigned32_encodeI32 e.2.1 he3 he4,
        toSigned32_encodeI32 e.2.2 (by omega) he6]
      rw [if_pos he5]
      have hrest := ih hes'
      simp only [encodeDirEntry, encodeI32, List.cons_append, List.nil_append,
        List.append_assoc] at hrest
      rw [hrest]

/-- C4 (amended): the directory scan terminates, stops at the first entry with
`start <= 0` (never reading the trailing bytes), returns the descriptors read
so far with byte size `sizeWords * 4`, and the caller's slice caps the entry
count at `max_blocks`; however, a buffer ending mid-entry makes the scan fail
(`struct.error`) rather than return the partial result. -/
theorem parse_directory_correct :
    (∀ (es : List (Int × Int × Int)) (sent : Int × Int × Int) (g : List Nat),
      (∀ e ∈ es, i32InRange e.1 ∧ i32InRange e.2.1 ∧ 0 < e.2.2 ∧ e.2.2 < 2 ^ 31) →
      (i32InRange sent.1 ∧ i32InRange sent.2.1 ∧ -(2 ^ 31) ≤ sent.2.2 ∧ sent.2.2 ≤ 0) →
      parse_directory ((es.map encodeDirEntry).flatten ++ (encodeDirEntry sent ++ g))
        = .ok (es.map fun e => ⟨get_block_type_of_int e.1, e.2.1 * 4, e.2.2⟩))
    ∧ (∀ (filebytes : List Nat) (start maxBlocks : Nat) (r : List DirEntry),
      parse_directory (directory_slice filebytes start maxBlocks) = .ok r →
      r.length ≤ maxBlocks) := by
  constructor
  · exact parse_directory_encoded
  · intro filebytes start maxBlocks r h
    have h1 := parse_directory_length _ _ h
    have h2 : (directory_slice filebytes start maxBlocks).length ≤ maxBlocks * 3 * 4 := by
      simp [directory_slice]
    omega

/-- C4 (counterexample): on a 6-byte buffer — a structurally short directory
ending mid-entry — `parse_directory` raises (models Python `struct.error`)
instead of returning the descriptors successfully read so far. -/
theorem parse_directory_short_buffer_raises :
    parse_directory [0, 0, 0, 0, 0, 0] = .error () := rfl

/-- Witness for C4 at concrete inputs: one entry `(3, 10, 24)`, a zero
sentinel, trailing garbage `[1, 2, 3]`; and the cap at an empty file slice. -/
theorem parse_directory_correct_witness :
    parse_directory ((([((3 : Int), (10 : Int), (24 : Int))].map encodeDirEntry).flatten
        ++ (encodeDirEntry (0, 0, 0) ++ [1, 2, 3])))
      = .ok ([((3 : Int), (10 : Int), (24 : Int))].map
          fun e => ⟨get_block_type_of_int e.1, e.2.1 * 4, e.2.2⟩)
    ∧ ([] : List DirEntry).length ≤ 0 :=
  ⟨parse_directory_correct.1 [(3, 10, 24)] (0, 0, 0) [1, 2, 3]
      (by intro e he; simp at he; subst he; refine ⟨⟨by decide, by decide⟩, ⟨by decide, by decide⟩, by decide, by decide⟩)
      ⟨⟨by decide, by decide⟩, ⟨by decide, by decide⟩, by decide, by decide⟩,
    parse_directory_correct.2 [] 0 0 [] rfl⟩

/-! ## Parameter block parsing (`parse.parse_params`, `parse.decode_str`)

The Python loop advances its cursor by a byte count read from the scanned
data itself, so the embedding threads an explicit fuel.  Besides the
parameter dictionary, the scan returns a flag recording that it stopped at an
`END` key with every string value read fully in bounds; the flag is used by
lemmas about appending trailing bytes and is dropped by `parse_params`. -/

/-- Parameter value as produced by `parse_params`: `dtype 0` yields a 32-bit
signed integer, `dtype 1` a 64-bit float (carried as its little-endian bit
pattern), anything else a string. -/
inductive PVal
  | intVal (n : Int)
  | floatVal (bits : Nat)
  | strVal (s : String)
deriving DecidableEq, Repr

/-- Latin-1 decoding: each byte becomes the Unicode code point of equal value. -/
def latin1 (bs : List Nat) : String :=
  String.mk (bs.map Char.ofNat)

/-- Embedding of `parse.decode_str`.  `struct.unpack_from` raises when the
declared size is negative or overruns the buffer; `decode_str` catches every
exception and returns a `Failed to decode` marker string instead.  On
success the fixed-width value is truncated at the first NUL byte and decoded
as latin-1.  (Python also accepts a negative offset, counting from the end of
the buffer; no caller proved about here passes one, and the model maps that
case to the failure marker.) -/
def decode_str (size : Int) (b : List Nat) (offset : Int) : String :=
  if 0 ≤ size ∧ 0 ≤ offset ∧ offset.toNat + size.toNat ≤ b.length then
    latin1 (((b.drop offset.toNat).take size.toNat).takeWhile (fun c => !(c == 0)))
  else "Failed to decode"

/-- Python decodes the three key bytes as UTF-8.  The model implements the
ASCII subset: a key byte at or above 0x80 is treated as a decode error.  Every
theorem below either constrains the scanned bytes to ASCII or uses buffers
whose scanned key bytes are ASCII, so the restriction is never observable. -/
def asciiDecode (bs : List Nat) : Except Unit String :=
  if bs.all (fun c => c < 128) then .ok (String.mk (bs.map Char.ofNat)) else .error ()

/-- Python `str.lower` restricted to the ASCII keys produced by
`asciiDecode` (the source lower-cases the three-character parameter keys). -/
def lowerStr (s : String) : String :=
  String.mk (s.data.map Char.toLower)

/-- Python `dict` assignment `d[k] = v`: replaces the value of an existing
key in place, otherwise appends the pair (insertion order preserved). -/
def dictSet (d : List (String × PVal)) (k : String) (v : PVal) : List (String × PVal) :=
  if d.any (fun p => p.1 == k) then d.map (fun p => if p.1 == k then (k, v) else p)
  else d ++ [(k, v)]

/-- Result of one iteration of the `parse_params` loop body. -/
inductive StepRes
  | done (out : Except Unit (List (String × PVal) × Bool))
  | next (loc : Int) (ps : List (String × PVal)) (safe : Bool)
deriving Repr

/-- One iteration of the `parse_params` while-loop body (the Python loop has
already checked `loc < len(blockbytes)`).  Reads the 3-byte key, stops on
`END`, reads the `<2h>` dtype and size-in-words pair (size times two gives the
value byte length), decodes the value by dtype, stores it under the
lower-cased key, and advances the cursor by `val_size + 8`.  A negative
cursor is mapped to an error (Python would index from the buffer end; no run
proved about here reaches that state). -/
def paramsStep (b : List Nat) (loc : Int) (ps : List (String × PVal)) (safe : Bool) : StepRes :=
  if loc < 0 then .done (.error ()) else
  match asciiDecode ((b.drop loc.toNat).take 3) with
  | .error _ => .done (.error ())
  | .ok key =>
    if key == "END" then .done (.ok (ps, safe))
    else if b.length < loc.toNat + 8 then .done (.error ())
    else match readI16 b (loc.toNat + 4), readI16 b (loc.toNat + 6) with
      | some dtype, some rawSize =>
        if dtype == 0 then
          match readI32 b (loc.toNat + 8) with
          | some v => .next (loc + rawSize * 2 + 8) (dictSet ps (lowerStr key) (.intVal v)) safe
          | none => .done (.error ())
        else if dtype == 1 then
          match readU64 b (loc.toNat + 8) with
          | some bits =>
              .next (loc + rawSize * 2 + 8) (dictSet ps (lowerStr key) (.floatVal bits)) safe
          | none => .done (.error ())
        else
          .next (loc + rawSize * 2 + 8)
            (dictSet ps (lowerStr key)
              (.strVal (decode_str (rawSize * 2) b ((loc.toNat : Int) + 8))))
            (safe && decide (0 ≤ rawSize * 2 ∧ loc.toNat + 8 + (rawSize * 2).toNat ≤ b.length))
      | _, _ => .done (.error ())

/-- Fuel-indexed embedding of the `parse_params` while-loop.  `none` means the
fuel ran out, i.e. the Python loop has not returned within that many
iterations. -/
def paramsScan (b : List Nat) :
    Nat → Int → List (String × PVal) → Bool → Option (Except Unit (List (String × PVal) × Bool))
  | 0, loc, ps, _ =>
      if loc < (b.length : Int) then none else some (.ok (ps, false))
  | fuel + 1, loc, ps, safe =>
      if loc < (b.length : Int) then
        match paramsStep b loc ps safe with
        | .done out => some out
        | .next loc2 ps2 safe2 => paramsScan b fuel loc2 ps2 safe2
      else some (.ok (ps, false))

/-- Embedding of `parse.parse_params`: runs the scan from position 0 with an
empty dictionary.  Every Python-terminating run advances the cursor by at
least one byte per iteration, so `length + 1` iterations of fuel are enough;
`none` therefore models a run on which the Python loop never returns. -/
def parse_params (b : List Nat) : Option (Except Unit (List (String × PVal))) :=
  (paramsScan b (b.length + 1) 0 [] true).map (fun r => r.map Prod.fst)

/-! ## Theorems for claim C5 -/

/-- Adversarial 12-byte parameter record: key `AAA`, pad byte, dtype 0, and
declared size-in-words -4 (bytes 252, 255 as a little-endian signed 16-bit
value), followed by the 4-byte int value 10.  The loop advance is
`val_size + 8 = (-4) * 2 + 8 = 0`. -/
def c5bytes : List Nat := [65, 65, 65, 0, 0, 0, 252, 255, 10, 0, 0, 0]

/-- The dictionary state reached after one iteration on `c5bytes`; further
iterations rewrite the same key with the same value, so the state is a
fixed point of the loop body. -/
def c5params : List (String × PVal) := [("aaa", PVal.intVal 10)]

/-- The parameter scan on `b` never returns, whatever fuel it is given:
this is the model's rendering of a Python `while` loop that runs forever. -/
def params_scan_diverges (b : List Nat) : Prop :=
  ∀ fuel, paramsScan b fuel 0 [] true = none

/-- Helper: from the fixed-point state, the scan on `c5bytes` consumes all
its fuel without returning. -/
theorem c5_fixpoint_no_fuel : ∀ n, paramsScan c5bytes n 0 c5params true = none := by
  intro n
  induction n with
  | zero => rfl
  | succ n ih =>
      have hstep : paramsScan c5bytes (n + 1) 0 c5params true
          = paramsScan c5bytes n 0 c5params true := rfl
      rw [hstep]
      exact ih

/-- C5 (counterexample): on the adversarial record `c5bytes` the scan
position never advances, so the `parse_params` loop never terminates — no
amount of fuel makes the scan return, and `parse_params` itself yields
`none`.  This refutes termination for arbitrary declared size values. -/
theorem parse_params_adversarial_diverges :
    params_scan_diverges c5bytes ∧ parse_params c5bytes = none := by
  have hdiv : params_scan_diverges c5bytes := by
    intro fuel
    cases fuel with
    | zero => rfl
    | succ n =>
        have hstep : paramsScan c5bytes (n + 1) 0 [] true
            = paramsScan c5bytes n 0 c5params true := rfl
        rw [hstep]
        exact c5_fixpoint_no_fuel n
  refine ⟨hdiv, ?_⟩
  unfold parse_params
  rw [hdiv (c5bytes.length + 1)]
  rfl

/-- Helper: on an all-ASCII buffer every successfully read signed 16-bit
value is non-negative (the sign bit lives in a byte below 0x80). -/
theorem readI16_ascii_nonneg (b : List Nat) (hb : ∀ x ∈ b, x < 128) (i : Nat) (r : Int)
    (h : readI16 b i = some r) : 0 ≤ r := by
  unfold readI16 readU16 at h
  cases h0 : byteAt b i with
  | none => rw [h0] at h; simp at h
  | some v0 =>
      cases h1 : byteAt b (i + 1) with
      | none => rw [h0, h1] at h; simp at h
      | some v1 =>
          rw [h0, h1] at h
          simp only [Option.map_some] at h
          have hv1 : v1 < 128 := hb v1 (List.get?_mem h1)
          have hv0 : v0 < 128 := hb v0 (List.get?_mem h0)
          cases h
          unfold toSigned16
          rw [if_pos (by omega)]
          omega

/-- Helper: on an all-ASCII buffer, whenever the loop body continues, the new
cursor is at least 8 bytes further: the advance is `rawSize * 2 + 8` with the
declared size `rawSize` read by `readI16` and hence non-negative. -/
theorem paramsStep_next_advance (b : List Nat) (hb : ∀ x ∈ b, x < 128) (loc : Int)
    (hloc : 0 ≤ loc) (ps : List (String × PVal)) (safe : Bool)
    (loc2 : Int) (ps2 : List (String × PVal)) (safe2 : Bool)
    (hstep : paramsStep b loc ps safe = .next loc2 ps2 safe2) :
    loc + 8 ≤ loc2 ∧ 0 ≤ loc2 := by
  unfold paramsStep at hstep
  rw [if_neg (by omega : ¬loc < 0)] at hstep
  split at hstep
  · simp at hstep
  · split at hstep
    · simp at hstep
    · split at hstep
      · simp at hstep
      · split at hstep
        · next dtype rawSize heq4 heq6 =>
            have hraw := readI16_ascii_nonneg b hb _ _ heq6
            split at hstep
            · split at hstep
              · simp only [StepRes.next.injEq] at hstep
                omega
              · simp at hstep
            · split at hstep
              · split at hstep
                · simp only [StepRes.next.injEq] at hstep
                  omega
                · simp at hstep
              · simp only [StepRes.next.injEq] at hstep
                omega
        · simp at hstep

/-- Helper: with all-ASCII bytes the scan returns once the fuel covers the
buffer length divided by the minimum advance of 8 bytes per iteration. -/
theorem paramsScan_ascii_term (b : List Nat) (hb : ∀ x ∈ b, x < 128) :
    ∀ (fuel : Nat) (loc : Int) (ps : List (String × PVal)) (safe : Bool),
      0 ≤ loc → (b.length : Int) ≤ loc + 8 * (fuel : Int) →
      (paramsScan b fuel loc ps safe).isSome := by
  intro fuel
  induction fuel with
  | zero =>
      intro loc ps safe h0 hlen
      unfold paramsScan
      rw [if_neg (by push_cast at hlen; omega)]
      simp
  | succ n ih =>
      intro loc ps safe h0 hlen
      unfold paramsScan
      by_cases hc : loc < (b.length : Int)
      · rw [if_pos hc]
        cases hstep : paramsStep b loc ps safe with
        | done out => simp
        | next loc2 ps2 safe2 =>
            obtain ⟨hadv, hpos⟩ := paramsStep_next_advance b hb loc h0 ps safe loc2 ps2 safe2 hstep
            exact ih loc2 ps2 safe2 hpos (by push_cast at hlen ⊢; omega)
      · rw [if_neg hc]
        simp

/-- C5 (amended): the `parse_params` scan terminates — stopping at the first
`END` key or at the end of the buffer — whenever every scanned byte is below
0x80, which forces every record's declared size-in-words to be non-negative
and hence a cursor advance of at least 8 bytes per iteration.  For
adversarial negative declared sizes the loop position can fail to advance and
the scan runs forever (see the counterexample). -/
theorem parse_params_terminates_ascii (b : List Nat) (hb : ∀ x ∈ b, x < 128) :
    ∃ r, parse_params b = some r := by
  have h := paramsScan_ascii_term b hb (b.length + 1) 0 [] true le_rfl (by push_cast; omega)
  unfold parse_params
  cases hsc : paramsScan b (b.length + 1) 0 [] true with
  | none => rw [hsc] at h; simp at h
  | some r =>
      exact ⟨r.map Prod.fst, rfl⟩

/-- Witness for C5 (amended) on the concrete all-ASCII buffer `END`. -/
theorem parse_params_terminates_ascii_witness :
    ∃ r, parse_params [69, 78, 68] = some r :=
  parse_params_terminates_ascii [69, 78, 68] (by decide)

/-! ## Theorems for claim C6

The first group of lemmas shows that every read a successful END-terminated
scan performs is unchanged when trailing bytes are appended to the buffer:
this is the precise sense in which bytes after the `END` record are never
scanned. -/

/-- Helper: a successful single-byte read lies inside the list. -/
theorem byteAt_some_lt (b : List Nat) (i : Nat) (v : Nat) (h : byteAt b i = some v) :
    i < b.length :=
  (List.get?_eq_some.mp h).1

/-- Helper: reads strictly inside the first list ignore appended bytes. -/
theorem byteAt_append (b g : List Nat) (i : Nat) (h : i < b.length) :
    byteAt (b ++ g) i = byteAt b i :=
  List.get?_append h

/-- Helper: a successful 16-bit read ignores appended bytes. -/
theorem readU16_append (b g : List Nat) (i : Nat) (v : Nat) (h : readU16 b i = some v) :
    readU16 (b ++ g) i = some v := by
  unfold readU16 at h ⊢
  cases h0 : byteAt b i with
  | none => rw [h0] at h; simp at h
  | some v0 =>
      cases h1 : byteAt b (i + 1) with
      | none => rw [h0, h1] at h; simp at h
      | some v1 =>
          rw [h0, h1] at h
          rw [byteAt_append b g i (byteAt_some_lt b i v0 h0), h0,
            byteAt_append b g (i + 1) (byteAt_some_lt b (i + 1) v1 h1), h1]
          exact h

/-- Helper: a successful signed 16-bit read ignores appended bytes. -/
theorem readI16_append (b g : List Nat) (i : Nat) (v : Int) (h : readI16 b i = some v) :
    readI16 (b ++ g) i = some v := by
  unfold readI16 at h ⊢
  cases h0 : readU16 b i with
  | none => rw [h0] at h; simp at h
  | some u => rw [readU16_append b g i u h0]; rw [h0] at h; exact h

/-- Helper: a successful 32-bit read ignores appended bytes. -/
theorem readU32_append (b g : List Nat) (i : Nat) (v : Nat) (h : readU32 b i = some v) :
    readU32 (b ++ g) i = some v := by
  unfold readU32 at h ⊢
  cases h0 : byteAt b i with
  | none => rw [h0] at h; simp at h
  | some v0 =>
  cases h1 : byteAt b (i + 1) with
  | none => rw [h0, h1] at h; simp at h
  | some v1 =>
  cases h2 : byteAt b (i + 2) with
  | none => rw [h0, h1, h2] at h; simp at h
  | some v2 =>
  cases h3 : byteAt b (i + 3) with
  | none => rw [h0, h1, h2, h3] at h; simp at h
  | some v3 =>
  rw [h0, h1, h2, h3] at h
  rw [byteAt_append b g i (byteAt_some_lt b i v0 h0), h0,
    byteAt_append b g (i + 1) (byteAt_some_lt b (i + 1) v1 h1), h1,
    byteAt_append b g (i + 2) (byteAt_some_lt b (i + 2) v2 h2), h2,
    byteAt_append b g (i + 3) (byteAt_some_lt b (i + 3) v3 h3), h3]
  exact h

/-- Helper: a successful signed 32-bit read ignores appended bytes. -/
theorem readI32_append (b g : List Nat) (i : Nat) (v : Int) (h : readI32 b i = some v) :
    readI32 (b ++ g) i = some v := by
  unfold readI32 at h ⊢
  cases h0 : readU32 b i with
  | none => rw [h0] at h; simp at h
  | some u => rw [readU32_append b g i u h0]; rw [h0] at h; exact h

/-- Helper: a successful 64-bit read ignores appended bytes. -/
theorem readU64_append (b g : List Nat) (i : Nat) (v : Nat) (h : readU64 b i = some v) :
    readU64 (b ++ g) i = some v := by
  unfold readU64 at h ⊢
  cases h0 : readU32 b i with
  | none => rw [h0] at h; simp at h
  | some lo =>
      cases h1 : readU32 b (i + 4) with
      | none => rw [h0, h1] at h; simp at h
      | some hi =>
          rw [h0, h1] at h
          rw [readU32_append b g i lo h0, readU32_append b g (i + 4) hi h1]
          exact h

/-- Helper: a window fully inside the first list ignores appended bytes. -/
theorem dropTake_append (b g : List Nat) (l n : Nat) (h : l + n ≤ b.length) :
    ((b ++ g).drop l).take n = (b.drop l).take n := by
  rw [List.drop_append_of_le_length (by omega)]
  rw [List.take_append_of_le_length (by simp; omega)]

/-- Helper: an in-bounds fixed-width string read ignores appended bytes. -/
theorem decode_str_append (size : Int) (b g : List Nat) (offset : Int)
    (h1 : 0 ≤ size) (h2 : 0 ≤ offset) (h3 : offset.toNat + size.toNat ≤ b.length) :
    decode_str size (b ++ g) offset = decode_str size b offset := by
  unfold decode_str
  rw [if_pos ⟨h1, h2, by simp; omega⟩, if_pos ⟨h1, h2, h3⟩]
  rw [dropTake_append b g offset.toNat size.toNat h3]

/-- Helper: a successful ASCII decode determines the string from the bytes. -/
theorem asciiDecode_ok_inv (bs : List Nat) (key : String) (h : asciiDecode bs = .ok key) :
    key = String.mk (bs.map Char.ofNat) := by
  unfold asciiDecode at h
  split at h
  · cases h; rfl
  · cases h

/-- Helper: a loop-body iteration that returns normally is unchanged by
appending trailing bytes: a normal return only happens at an `END` key whose
three bytes lie inside the original buffer. -/
theorem paramsStep_append_done (b g : List Nat) (loc : Int) (ps : List (String × PVal))
    (safe : Bool) (out : List (String × PVal) × Bool)
    (h : paramsStep b loc ps safe = .done (.ok out)) :
    paramsStep (b ++ g) loc ps safe = .done (.ok out) := by
  unfold paramsStep at h ⊢
  split at h
  · simp at h
  next hneg =>
  rw [if_neg hneg]
  split at h
  · simp at h
  next key heqA =>
  have hkey := asciiDecode_ok_inv _ _ heqA
  split at h
  case isTrue hEND =>
    have hkeyEND : key = "END" := by simpa using hEND
    have hlen3 : loc.toNat + 3 ≤ b.length := by
      have hl : ((b.drop loc.toNat).take 3).length = 3 := by
        rw [hkey] at hkeyEND
        have h2 := congrArg (fun s => s.data.length) hkeyEND
        simpa using h2
      simp [List.length_take, List.length_drop] at hl
      omega
    have hw : (((b ++ g).drop loc.toNat).take 3) = ((b.drop loc.toNat).take 3) :=
      dropTake_append b g loc.toNat 3 hlen3
    simp only [hw, heqA, hEND, if_true]
    exact h
  case isFalse hEND =>
    split at h
    · simp at h
    next hlen =>
    split at h
    case h_2 => simp at h
    case h_1 dtype rawSize heq4 heq6 =>
      split at h
      · split at h <;> simp at h
      · split at h
        · split at h <;> simp at h
        · simp at h

/-- Helper: a loop-body iteration that continues with the safety flag still
set is unchanged by appending trailing bytes: all its reads, including any
fixed-width string value, lie inside the original buffer. -/
theorem paramsStep_append_next (b g : List Nat) (loc : Int) (ps : List (String × PVal))
    (safe : Bool) (loc2 : Int) (ps2 : List (String × PVal))
    (h : paramsStep b loc ps safe = .next loc2 ps2 true) :
    paramsStep (b ++ g) loc ps safe = .next loc2 ps2 true := by
  unfold paramsStep at h ⊢
  split at h
  · simp at h
  next hneg =>
  rw [if_neg hneg]
  split at h
  · simp at h
  next key heqA =>
  split at h
  case isTrue hEND => simp at h
  case isFalse hEND =>
  split at h
  · simp at h
  next hlen =>
  have hlen3 : loc.toNat + 3 ≤ b.length := by omega
  have hw : (((b ++ g).drop loc.toNat).take 3) = ((b.drop loc.toNat).take 3) :=
    dropTake_append b g loc.toNat 3 hlen3
  simp only [hw, heqA]
  rw [if_neg hEND]
  rw [if_neg (show ¬(b ++ g).length < loc.toNat + 8 by simp; omega)]
  split at h
  case h_2 => simp at h
  case h_1 dtype rawSize heq4 heq6 =>
  rw [readI16_append b g _ _ heq4, readI16_append b g _ _ heq6]
  dsimp only
  split at h
  case isTrue hd0 =>
    rw [if_pos hd0]
    split at h
    case h_1 v heqv =>
      rw [readI32_append b g _ _ heqv]
      dsimp only
      exact h
    case h_2 => simp at h
  case isFalse hd0 =>
    rw [if_neg hd0]
    split at h
    case isTrue hd1 =>
      rw [if_pos hd1]
      split at h
      case h_1 bits heqb =>
        rw [readU64_append b g _ _ heqb]
        dsimp only
        exact h
      case h_2 => simp at h
    case isFalse hd1 =>
      rw [if_neg hd1]
      simp only [StepRes.next.injEq] at h
      obtain ⟨hloc2, hps2, hflag⟩ := h
      have hsafe : safe = true := by
        cases safe
        · simp at hflag
        · rfl
      have hsok : 0 ≤ rawSize * 2 ∧ loc.toNat + 8 + (rawSize * 2).toNat ≤ b.length := by
        rw [hsafe] at hflag
        simpa using hflag
      have hds : decode_str (rawSize * 2) (b ++ g) ((loc.toNat : Int) + 8)
          = decode_str (rawSize * 2) b ((loc.toNat : Int) + 8) := by
        refine decode_str_append _ _ _ _ hsok.1 (by omega) ?_
        have : ((loc.toNat : Int) + 8).toNat = loc.toNat + 8 := by omega
        rw [this]
        exact hsok.2
      rw [hds]
      simp only [StepRes.next.injEq]
      refine ⟨hloc2, hps2, ?_⟩
      rw [hsafe]
      simp only [Bool.true_and, decide_eq_true_eq]
      refine ⟨hsok.1, ?_⟩
      simp only [List.length_append]
      omega

/-- Helper: a normal loop-body return comes from the `END` branch, which
returns the accumulated dictionary and flag unchanged. -/
theorem paramsStep_done_ok_flag (b : List Nat) (loc : Int) (ps r : List (String × PVal))
    (safe flag : Bool) (h : paramsStep b loc ps safe = .done (.ok (r, flag))) :
    r = ps ∧ flag = safe := by
  unfold paramsStep at h
  split at h
  · simp at h
  next hneg =>
  split at h
  · simp at h
  next key heqA =>
  split at h
  case isTrue hEND =>
    simp only [StepRes.done.injEq, Except.ok.injEq, Prod.mk.injEq] at h
    exact ⟨h.1.symm, h.2.symm⟩
  case isFalse hEND =>
  split at h
  · simp at h
  next hlen =>
  split at h
  case h_2 => simp at h
  case h_1 dtype rawSize heq4 heq6 =>
  split at h
  · split at h <;> simp at h
  · split at h
    · split at h <;> simp at h
    · simp at h

/-- Helper: the safety flag is only ever lowered, never raised, by a loop
iteration. -/
theorem paramsStep_next_flag_mono (b : List Nat) (loc : Int) (ps ps2 : List (String × PVal))
    (safe : Bool) (loc2 : Int) (h : paramsStep b loc ps safe = .next loc2 ps2 true) :
    safe = true := by
  unfold paramsStep at h
  split at h
  · simp at h
  next hneg =>
  split at h
  · simp at h
  next key heqA =>
  split at h
  case isTrue hEND => simp at h
  case isFalse hEND =>
  split at h
  · simp at h
  next hlen =>
  split at h
  case h_2 => simp at h
  case h_1 dtype rawSize heq4 heq6 =>
  split at h
  · split at h
    · simp only [StepRes.next.injEq] at h
      exact h.2.2
    · simp at h
  · split at h
    · split at h
      · simp only [StepRes.next.injEq] at h
        exact h.2.2
      · simp at h
    · simp only [StepRes.next.injEq] at h
      have := h.2.2
      cases safe
      · simp at this
      · rfl

/-- Helper: if the scan ends with the safety flag set, the flag was set at
every intermediate state. -/
theorem paramsScan_flag (b : List Nat) :
    ∀ (fuel : Nat) (loc : Int) (ps : List (String × PVal)) (safe : Bool)
      (r : List (String × PVal)),
      paramsScan b fuel loc ps safe = some (.ok (r, true)) → safe = true := by
  intro fuel
  induction fuel with
  | zero =>
      intro loc ps safe r h
      unfold paramsScan at h
      split at h
      · simp at h
      · simp at h
  | succ n ih =>
      intro loc ps safe r h
      unfold paramsScan at h
      split at h
      · cases hstep : paramsStep b loc ps safe with
        | done out =>
            rw [hstep] at h
            simp only [Option.some.injEq] at h
            subst h
            exact (paramsStep_done_ok_flag b loc ps r safe true hstep).2.symm ▸ rfl
        | next loc2 ps2 safe2 =>
            rw [hstep] at h
            have hsafe2 := ih loc2 ps2 safe2 r h
            subst hsafe2
            exact paramsStep_next_flag_mono b loc ps ps2 safe loc2 hstep
      · simp at h

/-- Helper: a scan that stops at `END` with all reads in bounds returns the
same dictionary when arbitrary bytes are appended to the buffer: the bytes
after the `END` record are never scanned. -/
theorem paramsScan_append (b g : List Nat) :
    ∀ (fuel : Nat) (loc : Int) (ps : List (String × PVal)) (safe : Bool)
      (r : List (String × PVal)),
      paramsScan b fuel loc ps safe = some (.ok (r, true)) →
      paramsScan (b ++ g) fuel loc ps safe = some (.ok (r, true)) := by
  intro fuel
  induction fuel with
  | zero =>
      intro loc ps safe r h
      unfold paramsScan at h
      split at h
      · simp at h
      · simp at h
  | succ n ih =>
      intro loc ps safe r h
      unfold paramsScan at h ⊢
      split at h
      case isTrue hc =>
        rw [if_pos (by simp only [List.length_append]; push_cast; omega :
          loc < ((b ++ g).length : Int))]
        cases hstep : paramsStep b loc ps safe with
        | done out =>
            rw [hstep] at h
            simp only [Option.some.injEq] at h
            subst h
            rw [paramsStep_append_done b g loc ps safe (r, true) hstep]
        | next loc2 ps2 safe2 =>
            rw [hstep] at h
            have hsafe2 : safe2 = true := paramsScan_flag b n loc2 ps2 safe2 r h
            subst hsafe2
            rw [paramsStep_append_next b g loc ps safe loc2 ps2 hstep]
            exact ih loc2 ps2 true r h
      case isFalse hc => simp at h

/-- Helper: giving the scan more fuel cannot change a returned result. -/
theorem paramsScan_mono (b : List Nat) :
    ∀ (fuel fuel' : Nat), fuel ≤ fuel' →
      ∀ (loc : Int) (ps : List (String × PVal)) (safe : Bool)
        (r : Except Unit (List (String × PVal) × Bool)),
      paramsScan b fuel loc ps safe = some r → paramsScan b fuel' loc ps safe = some r := by
  intro fuel
  induction fuel with
  | zero =>
      intro fuel' hle loc ps safe r h
      unfold paramsScan at h
      split at h
      · simp at h
      next hc =>
        simp only [Option.some.injEq] at h
        subst h
        cases fuel' with
        | zero => unfold paramsScan; rw [if_neg hc]
        | succ m => unfold paramsScan; rw [if_neg hc]
  | succ n ih =>
      intro fuel' hle loc ps safe r h
      cases fuel' with
      | zero => omega
      | succ m =>
          unfold paramsScan at h ⊢
          split at h
          case isTrue hc =>
            rw [if_pos hc]
            cases hstep : paramsStep b loc ps safe with
            | done out =>
                rw [hstep] at h
                dsimp only at h ⊢
                exact h
            | next loc2 ps2 safe2 =>
                rw [hstep] at h
                dsimp only at h ⊢
                exact ih m (by omega) loc2 ps2 safe2 r h
          case isFalse hc =>
            rw [if_neg hc]
            exact h

/-- The crafted buffer from the spec: record `NPT` with dtype 0 (32-bit int),
size-in-words 2 and value 10, followed by the `END` key. -/
def c6buf : List Nat := [78, 80, 84, 0, 0, 0, 2, 0, 10, 0, 0, 0, 69, 78, 68]

/-- A single dtype-0 record with key `ABC` and four arbitrary value bytes;
the scan then stops at the end of the buffer. -/
def intRecord (v0 v1 v2 v3 : Nat) : List Nat :=
  [65, 66, 67, 0, 0, 0, 2, 0, v0, v1, v2, v3]

/-- A single dtype-1 record with key `ABC` and eight arbitrary value bytes
(the little-endian bit pattern of an IEEE-754 double). -/
def floatRecord (w0 w1 w2 w3 w4 w5 w6 w7 : Nat) : List Nat :=
  [65, 66, 67, 0, 1, 0, 4, 0, w0, w1, w2, w3, w4, w5, w6, w7]

/-- A single record with key `ABC`, dtype 2 (string), declared width 4, and
value bytes `a, c, NUL, 7`: the NUL terminator cuts the string after two
characters. -/
def strRecord (a c : Nat) : List Nat :=
  [65, 66, 67, 0, 2, 0, 2, 0, a, c, 0, 7]

/-- Helper: the fixed-width string value of `strRecord` is truncated at the
first NUL byte, yielding the two-character latin-1 string. -/
theorem decode_str_strRecord (a c : Nat) (ha : a ≠ 0) (hc : c ≠ 0) :
    decode_str 4 (strRecord a c) 8 = latin1 [a, c] := by
  unfold decode_str strRecord
  rw [if_pos (by refine ⟨by norm_num, by norm_num, ?_⟩; simp)]
  show latin1 ([a, c, 0, 7].takeWhile fun x => !(x == 0)) = latin1 [a, c]
  rw [List.takeWhile_cons_of_pos (by simp [ha]), List.takeWhile_cons_of_pos (by simp [hc]),
    List.takeWhile_cons_of_neg (by simp)]

/-- C6: `parse_params` decodes a dtype-0 value as a little-endian signed
32-bit integer, a dtype-1 value as a little-endian 64-bit float (bit
pattern), and any other dtype as a fixed-width string truncated at the first
NUL byte; keys are stored lower-cased; the crafted buffer `NPT=<i32 10>`,
`END` yields exactly the dictionary `npt = 10`, and bytes after the `END`
record are never scanned. -/
theorem parse_params_decoding :
    (∀ g : List Nat, parse_params (c6buf ++ g) = some (.ok [("npt", PVal.intVal 10)]))
    ∧ (∀ v0 v1 v2 v3 : Nat, parse_params (intRecord v0 v1 v2 v3)
        = some (.ok [("abc",
            PVal.intVal (toSigned32 (v0 + 256 * v1 + 2 ^ 16 * v2 + 2 ^ 24 * v3)))]))
    ∧ (∀ w0 w1 w2 w3 w4 w5 w6 w7 : Nat, parse_params (floatRecord w0 w1 w2 w3 w4 w5 w6 w7)
        = some (.ok [("abc", PVal.floatVal
            (w0 + 256 * w1 + 2 ^ 16 * w2 + 2 ^ 24 * w3
              + 2 ^ 32 * (w4 + 256 * w5 + 2 ^ 16 * w6 + 2 ^ 24 * w7)))]))
    ∧ (∀ a c : Nat, a ≠ 0 → c ≠ 0 → parse_params (strRecord a c)
        = some (.ok [("abc", PVal.strVal (latin1 [a, c]))])) := by
  refine ⟨?_, ?_, ?_, ?_⟩
  · intro g
    have h16 : paramsScan c6buf 16 0 [] true
        = some (.ok ([("npt", PVal.intVal 10)], true)) := rfl
    have happ := paramsScan_append c6buf g 16 0 [] true _ h16
    have hmono := paramsScan_mono (c6buf ++ g) 16 ((c6buf ++ g).length + 1)
      (by simp [c6buf]) 0 [] true _ happ
    unfold parse_params
    rw [hmono]
    rfl
  · intro v0 v1 v2 v3
    rfl
  · intro w0 w1 w2 w3 w4 w5 w6 w7
    rfl
  · intro a c ha hc
    have hbase : parse_params (strRecord a c)
        = some (.ok [("abc", PVal.strVal (decode_str 4 (strRecord a c) 8))]) := rfl
    rw [hbase, decode_str_strRecord a c ha hc]

/-- Witness for C6 at concrete inputs: garbage `[7, 7, 7]` after `END`, int
bytes 1,2,3,4, float bytes 1..8, and the string bytes of `HI`. -/
theorem parse_params_decoding_witness :
    parse_params (c6buf ++ [7, 7, 7]) = some (.ok [("npt", PVal.intVal 10)])
    ∧ parse_params (intRecord 1 2 3 4)
        = some (.ok [("abc", PVal.intVal (toSigned32 (1 + 256 * 2 + 2 ^ 16 * 3 + 2 ^ 24 * 4)))])
    ∧ parse_params (floatRecord 1 2 3 4 5 6 7 8)
        = some (.ok [("abc", PVal.floatVal
            (1 + 256 * 2 + 2 ^ 16 * 3 + 2 ^ 24 * 4
              + 2 ^ 32 * (5 + 256 * 6 + 2 ^ 16 * 7 + 2 ^ 24 * 8)))])
    ∧ parse_params (strRecord 72 73) = some (.ok [("abc", PVal.strVal (latin1 [72, 73]))]) :=
  ⟨parse_params_decoding.1 [7, 7, 7], parse_params_decoding.2.1 1 2 3 4,
    parse_params_decoding.2.2.1 1 2 3 4 5 6 7 8,
    parse_params_decoding.2.2.2 72 73 (by decide) (by decide)⟩

/-! ## Pairing engine (`block.py`: type/value matching and
`pair_data_and_status_blocks`)

Parsed payloads are modelled with numeric values as `Int` (see the header
note): the claims proved below concern control flow, lengths and element
selection.  A payload whose kind does not support an operation Python would
raise on (indexing a non-dict, slicing a non-sequence, `len(None)`) is mapped
to `none` at the point of that operation. -/

/-- Parsed payload of a `FileBlock` as observed by the pairing engine. -/
inductive MData
  | arr (ys : List Int)
  | pdict (ps : List (String × Int))
  | seriesDict (n : Nat)
  | strData (s : String)
  | noneData
deriving DecidableEq, Repr

/-- A `FileBlock` as observed by the pairing engine: type tuple, start
pointer, and parsed payload. -/
structure MBlock where
  btype : BType
  start : Int
  parsed : MData
deriving DecidableEq, Repr

instance : Inhabited MBlock :=
  ⟨⟨⟨0, 0, 0, 0, 0, 0⟩, 0, .noneData⟩⟩

/-- Python `type(x) is str`. -/
def MData.isStr : MData → Bool
  | .strData _ => true
  | _ => false

/-- Python `len(x)`: length of an array, dict, or string; `none` for `None`
(a `TypeError`).  A parsed data-series dict carries its entry count. -/
def dataLen : MData → Option Nat
  | .arr ys => some ys.length
  | .pdict ps => some ps.length
  | .seriesDict n => some n
  | .strData s => some s.length
  | .noneData => none

/-- Dictionary view of a payload; `none` when Python key-indexing the payload
would raise. -/
def asDict : MData → Option (List (String × Int))
  | .pdict ps => some ps
  | _ => none

/-- Array view of a payload; `none` when Python slicing/scaling the payload
as a numeric array would raise. -/
def asArr : MData → Option (List Int)
  | .arr ys => some ys
  | _ => none

/-- First-match lookup in a parameter dictionary (Python dicts have unique
keys, so this is plain `d[k]`). -/
def dictLookup (k : String) : List (String × Int) → Option Int
  | [] => none
  | p :: ps => if p.1 == k then some p.2 else dictLookup k ps

/-- Python slice `xs[:n]` for an `Int` bound: non-negative bounds clamp to
the length, negative bounds count from the end. -/
def pyTakeInt (xs : List Int) (n : Int) : List Int :=
  if 0 ≤ n then xs.take n.toNat else xs.take (xs.length - n.natAbs)

/-- Embedding of `block.is_data_status_type_match`: the tuples agree on the
first two and the last three positions (all but `statusLevel`). -/
def is_data_status_type_match (d s : MBlock) : Bool :=
  s.btype.t0 == d.btype.t0 && s.btype.t1 == d.btype.t1 && s.btype.t3 == d.btype.t3
    && s.btype.t4 == d.btype.t4 && s.btype.t5 == d.btype.t5

/-- The `try` body of `block.is_data_status_val_match`, with `none` standing
for any raised exception, in Python evaluation order: length versus `npt`
first (short data answers `False` before `csf` is even looked up), then the
scaled min compared with `mny` (short-circuiting `and`), then the scaled max
compared with `mxy`. -/
def val_match_core (d s : MBlock) : Option Bool := do
  let n ← dataLen d.parsed
  let ds ← asDict s.parsed
  let npt ← dictLookup "npt" ds
  if (n : Int) < npt then
    return false
  else
    let ys ← asArr d.parsed
    let csf ← dictLookup "csf" ds
    let y := (pyTakeInt ys npt).map (fun v => csf * v)
    let mn ← y.min?
    let mny ← dictLookup "mny" ds
    if mn ≠ mny then
      return false
    else
      let mx ← y.max?
      let mxy ← dictLookup "mxy" ds
      return decide (mx = mxy)

/-- Embedding of `block.is_data_status_val_match`: on any error the candidate
is kept (`True`), and non-1-D-data blocks (data series) are always kept. -/
def is_data_status_val_match (d s : MBlock) : Bool :=
  if is_data d.btype then (val_match_core d s).getD true else true

/-- Embedding of `block.is_valid_match`: no exception handler here — a
missing payload or `npt` key propagates as an error.  A 1-D data block
shorter than the status block's declared point count is an invalid match. -/
def is_valid_match (d s : MBlock) : Except Unit Bool :=
  if is_data d.btype then
    match dataLen d.parsed with
    | none => .error ()
    | some n =>
      match asDict s.parsed with
      | none => .error ()
      | some ds =>
        match dictLookup "npt" ds with
        | none => .error ()
        | some npt => .ok (!decide ((n : Int) < npt))
  else .ok true

/-- List filtering with a fallible predicate, aborting at the first error
(Python list comprehension order). -/
def filterE (f : MBlock × MBlock → Except Unit Bool) :
    List (MBlock × MBlock) → Except Unit (List (MBlock × MBlock))
  | [] => .ok []
  | x :: xs =>
    match f x with
    | .error e => .error e
    | .ok b =>
      match filterE f xs with
      | .error e => .error e
      | .ok ys => .ok (if b then x :: ys else ys)

/-- Stable insertion for descending sort by the data block's start pointer
(`list.sort(key=..., reverse=True)` is stable). -/
def insertByStart (p : MBlock × MBlock) :
    List (MBlock × MBlock) → List (MBlock × MBlock)
  | [] => [p]
  | q :: qs => if p.1.start < q.1.start then q :: insertByStart p qs else p :: q :: qs

/-- Stable descending sort by the data block's start pointer. -/
def sortByStartDesc : List (MBlock × MBlock) → List (MBlock × MBlock)
  | [] => []
  | p :: ps => insertByStart p (sortByStartDesc ps)

/-- Steps 1-5 of `block.pair_data_and_status_blocks`: the accumulated
singleton matches before the final validity filter and sort.  The Python list
comprehension for `data` parenthesizes as
`is_data(b) or (is_data_series(b) and not isStr(b.data))` (Python operator
precedence).  The final `multi_matches` rebinding in the source is dead code
(never used after step 5) and is omitted. -/
def pairing_single_matches (blocks : List MBlock) : List (MBlock × MBlock) :=
  let data_status := blocks.filter (fun b => is_data_status b.btype && !b.parsed.isStr)
  let data := blocks.filter
    (fun b => is_data b.btype || (is_data_series b.btype && !b.parsed.isStr))
  let type_matches := data.map
    (fun d => (d, data_status.filter (fun s => is_data_status_type_match d s)))
  let single1 := (type_matches.filter (fun m => m.2.length == 1)).map
    (fun m => (m.1, m.2.headI))
  let multi1 := type_matches.filter (fun m => 1 < m.2.length)
  let val_matches := multi1.map
    (fun m => (m.1, m.2.filter (fun s => is_data_status_val_match m.1 s)))
  let single2 := single1 ++ (val_matches.filter (fun m => m.2.length == 1)).map
    (fun m => (m.1, m.2.headI))
  let multi2 := val_matches.filter (fun m => 1 < m.2.length)
  let single_starts := single2.map (fun m => m.2.start)
  let reduced := multi2.map
    (fun m => (m.1, m.2.filter (fun s => !(single_starts.contains s.start))))
  single2 ++ (reduced.filter (fun m => m.2.length == 1)).map
    (fun m => (m.1, m.2.headI))

/-- Embedding of `block.pair_data_and_status_blocks`: steps 1-5 collect
singleton matches, step 6 removes invalid matches (an error when
`is_valid_match` raises), step 7 sorts by data-block start descending. -/
def pair_data_and_status_blocks (blocks : List MBlock) :
    Except Unit (List (MBlock × MBlock)) :=
  match filterE (fun m => is_valid_match m.1 m.2) (pairing_single_matches blocks) with
  | .error e => .error e
  | .ok valid => .ok (sortByStartDesc valid)

/-! ## Theorems for claims C1 and C8 -/

/-- Helper: insertion keeps exactly the inserted element and the old ones. -/
theorem mem_insertByStart (p x : MBlock × MBlock) (l : List (MBlock × MBlock))
    (h : x ∈ insertByStart p l) : x = p ∨ x ∈ l := by
  induction l with
  | nil => simpa [insertByStart] using h
  | cons q qs ih =>
      unfold insertByStart at h
      split at h
      · rcases List.mem_cons.mp h with hq | hrest
        · exact Or.inr (List.mem_cons.mpr (Or.inl hq))
        · rcases ih hrest with hx | hx
          · exact Or.inl hx
          · exact Or.inr (List.mem_cons.mpr (Or.inr hx))
      · rcases List.mem_cons.mp h with hq | hrest
        · exact Or.inl hq
        · exact Or.inr hrest

/-- Helper: sorting permutes, so membership is preserved. -/
theorem mem_sortByStartDesc (x : MBlock × MBlock) (l : List (MBlock × MBlock))
    (h : x ∈ sortByStartDesc l) : x ∈ l := by
  induction l with
  | nil => simpa [sortByStartDesc] using h
  | cons p ps ih =>
      unfold sortByStartDesc at h
      rcases mem_insertByStart p x (sortByStartDesc ps) h with hx | hx
      · exact hx ▸ List.mem_cons_self p ps
      · exact List.mem_cons_of_mem p (ih hx)

/-- Helper: a successful fallible filter keeps only elements on which the
predicate returned `True`. -/
theorem filterE_ok_mem (f : MBlock × MBlock → Except Unit Bool)
    (xs ys : List (MBlock × MBlock)) (h : filterE f xs = .ok ys) :
    ∀ y ∈ ys, y ∈ xs ∧ f y = .ok true := by
  induction xs generalizing ys with
  | nil =>
      unfold filterE at h
      cases h
      intro y hy
      simp at hy
  | cons x xs ih =>
      unfold filterE at h
      cases hf : f x with
      | error e => rw [hf] at h; cases h
      | ok b =>
          rw [hf] at h
          cases hrest : filterE f xs with
          | error e => rw [hrest] at h; cases h
          | ok zs =>
              rw [hrest] at h
              cases h
              intro y hy
              cases b with
              | true =>
                  rcases List.mem_cons.mp (by simpa using hy) with hx | hz
                  · exact ⟨List.mem_cons.mpr (Or.inl hx), hx ▸ hf⟩
                  · obtain ⟨hmem, hfy⟩ := ih zs hrest y hz
                    exact ⟨List.mem_cons.mpr (Or.inr hmem), hfy⟩
              | false =>
                  obtain ⟨hmem, hfy⟩ := ih zs hrest y (by simpa using hy)
                  exact ⟨List.mem_cons.mpr (Or.inr hmem), hfy⟩

/-- Helper: a successful `True` validity check on a 1-D data block means the
parsed data length is at least the status block's declared point count. -/
theorem is_valid_match_ok_true (d s : MBlock) (hdata : is_data d.btype = true)
    (h : is_valid_match d s = .ok true) :
    ∃ (n : Nat) (ds : List (String × Int)) (npt : Int),
      dataLen d.parsed = some n ∧ asDict s.parsed = some ds
        ∧ dictLookup "npt" ds = some npt ∧ npt ≤ (n : Int) := by
  unfold is_valid_match at h
  rw [if_pos hdata] at h
  cases hn : dataLen d.parsed with
  | none => rw [hn] at h; simp at h
  | some n =>
      rw [hn] at h
      dsimp only at h
      cases hds : asDict s.parsed with
      | none => rw [hds] at h; simp at h
      | some ds =>
          rw [hds] at h
          dsimp only at h
          cases hnpt : dictLookup "npt" ds with
          | none => rw [hnpt] at h; simp at h
          | some npt =>
              rw [hnpt] at h
              simp only [Except.ok.injEq, Bool.not_eq_eq_eq_not, Bool.not_true,
                decide_eq_false_iff_not, not_lt] at h
              exact ⟨n, ds, npt, rfl, rfl, hnpt, by omega⟩

/-- C1: every (data, status) pair returned by `pair_data_and_status_blocks`
whose data block is a 1-D data block satisfies
`len(data.data) >= status.data['npt']`: a singleton match whose data array is
shorter than the declared point count is removed by the final validity
filter. -/
theorem pairing_validity (blocks : List MBlock) (l : List (MBlock × MBlock))
    (h : pair_data_and_status_blocks blocks = .ok l) :
    ∀ p ∈ l, is_data p.1.btype = true →
      ∃ (n : Nat) (ds : List (String × Int)) (npt : Int),
        dataLen p.1.parsed = some n ∧ asDict p.2.parsed = some ds
          ∧ dictLookup "npt" ds = some npt ∧ npt ≤ (n : Int) := by
  intro p hp hdata
  unfold pair_data_and_status_blocks at h
  cases hf : filterE (fun m => is_valid_match m.1 m.2) (pairing_single_matches blocks) with
  | error e => rw [hf] at h; cases h
  | ok valid =>
      rw [hf] at h
      cases h
      have hmem := mem_sortByStartDesc p valid hp
      obtain ⟨_, hvalid⟩ := filterE_ok_mem _ (pairing_single_matches blocks) valid hf p hmem
      exact is_valid_match_ok_true p.1 p.2 hdata hvalid

/-- A concrete 1-D data block: type `(0, 1, 0, 1, 0, 0)` (sample data),
start 100, parsed array `[5, 6]`. -/
def c1data : MBlock :=
  ⟨⟨0, 1, 0, 1, 0, 0⟩, 100, .arr [5, 6]⟩

/-- A concrete matching data status block: `statusLevel` 1, same remaining
type fields, declared point count 2. -/
def c1status : MBlock :=
  ⟨⟨0, 1, 1, 1, 0, 0⟩, 50, .pdict [("npt", 2), ("csf", 1), ("mny", 5), ("mxy", 6)]⟩

/-- Witness for C1: the concrete two-block file pairs the data block with its
status block, and the theorem yields the length bound at that pair. -/
theorem pairing_validity_witness :
    ∃ (n : Nat) (ds : List (String × Int)) (npt : Int),
      dataLen (c1data, c1status).1.parsed = some n
        ∧ asDict (c1data, c1status).2.parsed = some ds
        ∧ dictLookup "npt" ds = some npt ∧ npt ≤ (n : Int) :=
  pairing_validity [c1data, c1status] [(c1data, c1status)] (by rfl)
    (c1data, c1status) (by simp) (by rfl)

/-- C8: the value-range disambiguation check retains a candidate on any
computation error (the Python `except: return True`), and always retains
candidates whose data block is not a 1-D data block (data series). -/
theorem val_match_error_policy (d s : MBlock) :
    (val_match_core d s = none → is_data_status_val_match d s = true)
    ∧ (is_data d.btype = false → is_data_status_val_match d s = true) := by
  constructor
  · intro h
    unfold is_data_status_val_match
    split
    · rw [h]
      rfl
    · rfl
  · intro h
    unfold is_data_status_val_match
    rw [if_neg (by simp [h])]

/-- A data block whose candidate status block lacks every key: the value
check errors at the `npt` lookup. -/
def c8data : MBlock :=
  ⟨⟨0, 1, 0, 1, 0, 0⟩, 100, .arr [5]⟩

/-- A status block with an empty parameter dictionary. -/
def c8status : MBlock :=
  ⟨⟨0, 1, 1, 1, 0, 0⟩, 50, .pdict []⟩

/-- A data series block (`auxB` 2), not subject to the value check. -/
def c8series : MBlock :=
  ⟨⟨0, 1, 0, 1, 0, 2⟩, 100, .seriesDict 3⟩

/-- Witness for C8: the check keeps the candidate when the `npt` lookup
fails, and keeps a data series block unconditionally. -/
theorem val_match_error_policy_witness :
    is_data_status_val_match c8data c8status = true
      ∧ is_data_status_val_match c8series c8status = true :=
  ⟨(val_match_error_policy c8data c8status).1 (by rfl),
    (val_match_error_policy c8series c8status).2 (by rfl)⟩

/-! ## Data record construction (`data.Data.__init__`) -/

/-- The status-block parameters `Data.__init__` reads: point count, y-scale
factor, and the x-axis bounds.  Values are the model's integer scalars. -/
structure DataParams where
  npt : Int
  csf : Int
  fxv : Int
  lxv : Int
deriving DecidableEq, Repr

/-- Model of `numpy.linspace(a, b, n)`: `n` evenly spaced values from `a`
towards `b`; raises for a negative `n`.  The step is taken with integer
division (model note: only the length and the error behaviour of the x array
are used by any claim).  For `n = 1` the divisor underflows to zero and
Lean's division by zero yields `a`, matching numpy's singleton `[a]`. -/
def linspace (a b : Int) (n : Int) : Except Unit (List Int) :=
  if n < 0 then .error ()
  else .ok ((List.range n.toNat).map (fun (i : Nat) => a + (b - a) * (i : Int) / (n - 1)))

/-- Python slice `xs[-n:]` for an `Int` count: for positive `n` the last `n`
elements; `-0` is `0`, so `n = 0` yields the whole list; a negative `n`
drops `|n|` leading elements. -/
def pyTail (xs : List Int) (n : Int) : List Int :=
  if 0 < n then xs.drop (xs.length - n.toNat)
  else if n == 0 then xs
  else xs.drop n.natAbs

/-- The `y` and `x` arrays of a constructed `Data` record. -/
structure DataRec where
  y : List Int
  x : List Int
deriving DecidableEq, Repr

/-- Embedding of `data.Data.__init__`: for a compact data block the raw array
is first cut to its tail (`data[-npt:]`), then trimmed to the first `npt`
elements and scaled by `csf`; the x array is a linspace over `npt` points.
A payload that is not a parsed array is mapped to an error (Python raises on
slicing `None` or a dict; the claims quantify over array payloads). -/
def Data_init (d : MBlock) (p : DataParams) : Except Unit DataRec :=
  match asArr d.parsed with
  | none => .error ()
  | some raw =>
    let y0 := if is_compact_data d.btype then pyTail raw p.npt else raw
    let y := (pyTakeInt y0 p.npt).map (fun v => p.csf * v)
    match linspace p.fxv p.lxv p.npt with
    | .error e => .error e
    | .ok x => .ok ⟨y, x⟩

/-- C2: a 1-D data block constructed into a `Data` record with a status block
whose parsed array has at least `npt` elements satisfies
`len(y) = len(x) = npt`; the retained elements are the last `npt` elements of
the raw array for a compact data block and the first `npt` elements
otherwise, scaled by the status block's `csf` factor. -/
theorem data_init_trim (d : MBlock) (p : DataParams) (raw : List Int) (rec : DataRec)
    (harr : d.parsed = .arr raw) (hinit : Data_init d p = .ok rec)
    (hlen : p.npt ≤ (raw.length : Int)) :
    (rec.y.length : Int) = p.npt ∧ (rec.x.length : Int) = p.npt
      ∧ (is_compact_data d.btype = true →
          rec.y = (raw.drop (raw.length - p.npt.toNat)).map (fun v => p.csf * v))
      ∧ (is_compact_data d.btype = false →
          rec.y = (raw.take p.npt.toNat).map (fun v => p.csf * v)) := by
  unfold Data_init at hinit
  rw [harr] at hinit
  dsimp only at hinit
  cases hls : linspace p.fxv p.lxv p.npt with
  | error e => rw [hls] at hinit; cases hinit
  | ok x =>
      rw [hls] at hinit
      cases hinit
      have hnpt : 0 ≤ p.npt := by
        unfold linspace at hls
        by_cases hneg : p.npt < 0
        · rw [if_pos hneg] at hls; cases hls
        · omega
      have hxlen : (x.length : Int) = p.npt := by
        unfold linspace at hls
        rw [if_neg (by omega)] at hls
        cases hls
        simp only [List.length_map, List.length_range]
        omega
      constructor
      · simp only [List.length_map]
        unfold pyTakeInt
        rw [if_pos hnpt]
        by_cases h0 : 0 < p.npt
        · split
          · unfold pyTail
            rw [if_pos h0]
            simp only [List.length_take, List.length_drop]
            omega
          · simp only [List.length_take]
            omega
        · have hz : p.npt = 0 := by omega
          rw [hz]
          simp
      refine ⟨hxlen, ?_, ?_⟩
      · intro hcomp
        simp only [hcomp, if_true]
        unfold pyTakeInt
        rw [if_pos hnpt]
        by_cases h0 : 0 < p.npt
        · unfold pyTail
          rw [if_pos h0]
          rw [List.take_of_length_le (by simp; omega)]
        · have hz : p.npt = 0 := by omega
          rw [hz]
          simp
      · intro hcomp
        simp only [hcomp, if_false, Bool.false_eq_true]
        unfold pyTakeInt
        rw [if_pos hnpt]

/-- Witness for C2 at a concrete compact data block: type
`(0, 1, 0, 1, 0, 4)` (`auxB` 4 marks the compact variant), raw array of three
elements, point count 2, scale 3. -/
theorem data_init_trim_witness :
    ((DataRec.mk [6, 9] [7, 7]).y.length : Int) = (2 : Int)
      ∧ ((DataRec.mk [6, 9] [7, 7]).x.length : Int) = (2 : Int)
      ∧ (is_compact_data (BType.mk 0 1 0 1 0 4) = true →
          (DataRec.mk [6, 9] [7, 7]).y
            = (([1, 2, 3] : List Int).drop (([1, 2, 3] : List Int).length - (2 : Int).toNat)).map
                (fun v => (3 : Int) * v))
      ∧ (is_compact_data (BType.mk 0 1 0 1 0 4) = false →
          (DataRec.mk [6, 9] [7, 7]).y
            = (([1, 2, 3] : List Int).take (2 : Int).toNat).map (fun v => (3 : Int) * v)) :=
  data_init_trim ⟨⟨0, 1, 0, 1, 0, 4⟩, 100, .arr [1, 2, 3]⟩ ⟨2, 3, 7, 7⟩ [1, 2, 3]
    ⟨[6, 9], [7, 7]⟩ rfl (by rfl) (by decide)

/-! ## Parameter set merging (`params.Parameters.__init__`) -/

/-- Python `dict` assignment for the pairing-layer integer dictionaries. -/
def dictSetI (d : List (String × Int)) (k : String) (v : Int) : List (String × Int) :=
  if d.any (fun p => p.1 == k) then d.map (fun p => if p.1 == k then (k, v) else p)
  else d ++ [(k, v)]

/-- Python `d.update(e)`: assign every pair of `e` into `d` in order. -/
def dictUpdateI (d e : List (String × Int)) : List (String × Int) :=
  e.foldl (fun acc kv => dictSetI acc kv.1 kv.2) d

/-- Embedding of the merging loop of `params.Parameters.__init__`:
`self._params` starts empty and each block's parsed dictionary is merged in
list order with `self._params.update(block.data)`. -/
def parameters_merge (blocks : List (List (String × Int))) : List (String × Int) :=
  blocks.foldl dictUpdateI []

/-- C9 (counterexample): merging two blocks that both carry the key `npt`
silently keeps only the later value — the merged result is identical to
merging the later block alone, so no duplicate-key signal of any kind is
produced and the earlier value is dropped. -/
theorem parameters_merge_shadows :
    parameters_merge [[("npt", 1)], [("npt", 2)]] = parameters_merge [[("npt", 2)]]
      ∧ parameters_merge [[("npt", 1)], [("npt", 2)]] = [("npt", 2)] := by
  constructor <;> rfl

/-- Helper: assignment makes the assigned key map to the assigned value. -/
theorem dictLookup_dictSetI_same (d : List (String × Int)) (k : String) (v : Int) :
    dictLookup k (dictSetI d k v) = some v := by
  unfold dictSetI
  split
  case isTrue hany =>
    induction d with
    | nil => simp at hany
    | cons p ds ih =>
        by_cases hp : p.1 == k
        · simp only [List.map_cons, hp, if_true]
          unfold dictLookup
          simp
        · simp only [List.map_cons, hp, if_false, Bool.false_eq_true]
          unfold dictLookup
          rw [if_neg (by simp_all)]
          exact ih (by simp only [List.any_cons, hp, Bool.false_or] at hany; exact hany)
  case isFalse hany =>
    induction d with
    | nil => unfold dictLookup; simp
    | cons p ds ih =>
        rw [List.cons_append]
        simp only [dictLookup]
        rw [if_neg (by
          intro hc
          exact hany (by simp only [List.any_cons, hc, Bool.true_or]))]
        exact ih (by
          intro hc
          exact hany (by simp only [List.any_cons, hc, Bool.or_true]))

/-- Helper: replacing the value at a different key does not change a lookup. -/
theorem dictLookup_map_other (d : List (String × Int)) (k k2 : String) (v : Int)
    (hne : k2 ≠ k) :
    dictLookup k (d.map (fun p => if p.1 == k2 then (k2, v) else p)) = dictLookup k d := by
  induction d with
  | nil => rfl
  | cons p ds ih =>
      simp only [List.map_cons, dictLookup]
      by_cases hp : p.1 == k2
      · rw [if_pos hp]
        simp only [dictLookup]
        rw [if_neg (by simp [hne]), if_neg (by
          have h2 := beq_iff_eq.mp hp
          simp [h2, hne])]
        exact ih
      · rw [if_neg hp]
        split
        · rfl
        · exact ih

/-- Helper: appending a pair with a different key does not change a lookup. -/
theorem dictLookup_append_other (d : List (String × Int)) (k k2 : String) (v : Int)
    (hne : k2 ≠ k) : dictLookup k (d ++ [(k2, v)]) = dictLookup k d := by
  induction d with
  | nil =>
      simp only [List.nil_append, dictLookup]
      rw [if_neg (by simp [hne])]
  | cons p ds ih =>
      rw [List.cons_append]
      simp only [dictLookup]
      split
      · rfl
      · exact ih

/-- Helper: assignment to a different key leaves a lookup unchanged. -/
theorem dictLookup_dictSetI_other (d : List (String × Int)) (k k2 : String) (v : Int)
    (hne : k2 ≠ k) : dictLookup k (dictSetI d k2 v) = dictLookup k d := by
  unfold dictSetI
  split
  · exact dictLookup_map_other d k k2 v hne
  · exact dictLookup_append_other d k k2 v hne

/-- Helper: updating with a dictionary that does not mention `k` does not
change the lookup at `k`. -/
theorem dictLookup_dictUpdateI_not_mem (e : List (String × Int)) :
    ∀ (d : List (String × Int)) (k : String), (∀ q ∈ e, q.1 ≠ k) →
      dictLookup k (dictUpdateI d e) = dictLookup k d := by
  induction e with
  | nil => intro d k _; rfl
  | cons q es ih =>
      intro d k hk
      unfold dictUpdateI
      rw [List.foldl_cons]
      have hstep : dictLookup k (dictSetI d q.1 q.2) = dictLookup k d :=
        dictLookup_dictSetI_other d k q.1 q.2 (hk q (List.mem_cons_self q es))
      have := ih (dictSetI d q.1 q.2) k (fun r hr => hk r (List.mem_cons_of_mem q hr))
      unfold dictUpdateI at this
      rw [this, hstep]

/-- Helper: after updating with a dictionary with distinct keys that maps `k`
to `v`, the merged dictionary maps `k` to `v`. -/
theorem dictLookup_dictUpdateI_mem (e : List (String × Int)) :
    ∀ (d : List (String × Int)) (k : String) (v : Int),
      dictLookup k e = some v → (e.map Prod.fst).Nodup →
      dictLookup k (dictUpdateI d e) = some v := by
  induction e with
  | nil => intro d k v hk _; cases hk
  | cons q es ih =>
      intro d k v hk hnd
      unfold dictUpdateI
      rw [List.foldl_cons]
      simp only [dictLookup] at hk
      by_cases hq : q.1 == k
      · rw [if_pos hq] at hk
        cases hk
        have hkq := beq_iff_eq.mp hq
        have hrest : ∀ r ∈ es, r.1 ≠ k := by
          intro r hr hc
          simp only [List.map_cons, List.nodup_cons] at hnd
          exact hnd.1 (by
            rw [hkq, ← hc]
            exact List.mem_map_of_mem Prod.fst hr)
        have := dictLookup_dictUpdateI_not_mem es (dictSetI d q.1 q.2) k hrest
        unfold dictUpdateI at this
        rw [this, hkq]
        exact dictLookup_dictSetI_same d k q.2
      · rw [if_neg hq] at hk
        have := ih (dictSetI d q.1 q.2) k v hk (by
          simp only [List.map_cons, List.nodup_cons] at hnd
          exact hnd.2)
        unfold dictUpdateI at this
        exact this

/-- C9 (amended): when two parsed parameter blocks are merged, a key present
in both is silently shadowed — the merged set maps the key to the later
block's value, with no error or other duplicate signal (the class docstring
warns callers not to pass overlapping blocks). -/
theorem parameters_merge_last_wins (b1 b2 : List (String × Int)) (k : String) (v : Int)
    (hk : dictLookup k b2 = some v) (hnd : (b2.map Prod.fst).Nodup) :
    dictLookup k (parameters_merge [b1, b2]) = some v := by
  unfold parameters_merge
  simp only [List.foldl_cons, List.foldl_nil]
  exact dictLookup_dictUpdateI_mem b2 (dictUpdateI [] b1) k v hk hnd

/-- Witness for C9 at concrete dictionaries: both blocks carry `npt`; the
merged set answers the later block's value 2. -/
theorem parameters_merge_last_wins_witness :
    dictLookup "npt" (parameters_merge [[("npt", 1), ("csf", 5)], [("npt", 2)]]) = some 2 :=
  parameters_merge_last_wins [("npt", 1), ("csf", 5)] [("npt", 2)] "npt" 2 (by rfl) (by decide)

/-! ## Report subreport parsing (`parse.parse_subreport`) -/

/-- Numeric binary layouts for subreport cells. -/
inductive NumFmt
  | i32
  | f32
  | f64
deriving DecidableEq, Repr

/-- Modelled from the spec: the numeric-type code table `SUBREPORT_TYPE_FMT`
lives in `brukeropus/file/constants.py`, which is not under `src/`.  The spec
states only that a small fixed table maps integer type codes to concrete
binary layouts (32-bit int, 32-bit float, 64-bit float, ...), with codes
above 1000 reserved for strings.  Representative code values are used here;
no property proved below depends on the particular numbers. -/
def SUBREPORT_TYPE_FMT : List (Int × NumFmt) :=
  [(2, .i32), (3, .f32), (4, .f64)]

/-- Table lookup for a subreport type code. -/
def subreportFmt : Int → Option NumFmt :=
  fun t => (SUBREPORT_TYPE_FMT.find? (fun p => p.1 == t)).map Prod.snd

/-- Cell value in a subreport data table.  Float cells carry their raw
little-endian bit patterns. -/
inductive CellVal
  | intVal (n : Int)
  | f32Val (bits : Nat)
  | f64Val (bits : Nat)
  | strVal (s : String)
  | rawVal (bs : List Nat)
deriving DecidableEq, Repr

/-- First-match lookup in a parsed parameter dictionary. -/
def lookupPVal (k : String) : List (String × PVal) → Option PVal
  | [] => none
  | p :: ps => if p.1 == k then some p.2 else lookupPVal k ps

/-- Integer access `info[k]` on a parsed parameter dictionary: a missing key
(Python `KeyError`) or a non-integer value (a `TypeError` at its first
arithmetic use) is an error. -/
def getIntKey (info : List (String × PVal)) (k : String) : Except Unit Int :=
  match lookupPVal k info with
  | some (.intVal n) => .ok n
  | _ => .error ()

/-- Python `f-string` `f'{c:02}'` for the column index (two-digit zero-padded;
subreports with 100 or more columns are outside the modelled range). -/
def twoDigit (c : Nat) : String :=
  String.mk [Char.ofNat (48 + c / 10 % 10), Char.ofNat (48 + c % 10)]

/-- Python slice `bs[a:b]` with full negative-index semantics (never raises). -/
def pySlice (bs : List Nat) (a b : Int) : List Nat :=
  let n := bs.length
  let a2 := if a < 0 then ((n : Int) + a).toNat else min a.toNat n
  let b2 := if b < 0 then ((n : Int) + b).toNat else min b.toNat n
  (bs.take b2).drop a2

/-- One cell of `parse_subreport`: reads the column's start offset and type
code, computes the read size — clamped against the next column's offset for
all but the last column — and decodes by type code: codes above 1000 are
fixed-width strings, table codes are numeric layouts, anything else yields
the raw bytes.  A negative offset for a numeric read is mapped to an error
(Python would read relative to the buffer end; no run proved about here
reaches that state). -/
def parse_cell (bytes : List Nat) (info : List (String × PVal)) (nco : Int)
    (row col : Nat) : Except Unit CellVal := do
  let siz ← getIntKey info "siz"
  let src ← getIntKey info "src"
  let f_c ← getIntKey info ("f" ++ twoDigit col)
  let t_c ← getIntKey info ("t" ++ twoDigit col)
  let offset := siz + (row : Int) * src + f_c
  let size ← (if (col : Int) < nco - 1 then do
      let f_n ← getIntKey info ("f" ++ twoDigit (col + 1))
      pure (min (t_c - 1000) (f_n - f_c))
    else pure (src - f_c))
  if 1000 < t_c then
    pure (.strVal (decode_str size bytes offset))
  else
    match subreportFmt t_c with
    | some .i32 =>
        if offset < 0 then .error () else
        match readI32 bytes offset.toNat with
        | some v => pure (.intVal v)
        | none => .error ()
    | some .f32 =>
        if offset < 0 then .error () else
        match readU32 bytes offset.toNat with
        | some bits => pure (.f32Val bits)
        | none => .error ()
    | some .f64 =>
        if offset < 0 then .error () else
        match readU64 bytes offset.toNat with
        | some bits => pure (.f64Val bits)
        | none => .error ()
    | none => pure (.rawVal (pySlice bytes offset (offset + size)))

/-- One row of `parse_subreport`: the column count is read at each row, so a
subreport declaring zero rows never touches the column keys. -/
def parse_subreport_row (bytes : List Nat) (info : List (String × PVal))
    (row : Nat) : Except Unit (List CellVal) := do
  let nco ← getIntKey info "nco"
  (List.range nco.toNat).mapM (fun col => parse_cell bytes info nco row col)

/-- Embedding of `parse.parse_subreport`: parses the mini parameter block at
the start of the bytes, then decodes `nln` rows of `nco` cells each.  The
outer `Option` is the fuel of the parameter scan (`none`: the Python call
never returns); the `Except` carries any raised exception. -/
def parse_subreport (bytes : List Nat) :
    Option (Except Unit (List (String × PVal) × List (List CellVal))) :=
  match parse_params bytes with
  | none => none
  | some (.error e) => some (.error e)
  | some (.ok info) => some (do
      let nln ← getIntKey info "nln"
      let rows ← (List.range nln.toNat).mapM (fun row => parse_subreport_row bytes info row)
      pure (info, rows))

/-- The mini parameter block of the crafted subreport: eight dtype-0 records
(`NCO=2`, `NLN=1`, `SIZ=104`, `SRC=11`, `F00=0`, `F01=3`, `T00` with
parametrised value bytes, `T01=4`), the `END` key, and padding up to the
declared mini-block size 104. -/
def c7mini (t0 t1 : Nat) : List Nat :=
  [78, 67, 79, 0, 0, 0, 2, 0, 2, 0, 0, 0,
   78, 76, 78, 0, 0, 0, 2, 0, 1, 0, 0, 0,
   83, 73, 90, 0, 0, 0, 2, 0, 104, 0, 0, 0,
   83, 82, 67, 0, 0, 0, 2, 0, 11, 0, 0, 0,
   70, 48, 48, 0, 0, 0, 2, 0, 0, 0, 0, 0,
   70, 48, 49, 0, 0, 0, 2, 0, 3, 0, 0, 0,
   84, 48, 48, 0, 0, 0, 2, 0, t0, t1, 0, 0,
   84, 48, 49, 0, 0, 0, 2, 0, 4, 0, 0, 0,
   69, 78, 68]

/-- The packed data row of the crafted subreport, preceded by the rest of the
padding: a three-byte string cell at offset `siz + f00 = 104` and an
eight-byte float cell at offset `siz + f01 = 107`. -/
def c7tail (s1 s2 s3 f0 f1 f2 f3 f4 f5 f6 f7 : Nat) : List Nat :=
  [0, 0, 0, 0, 0, s1, s2, s3, f0, f1, f2, f3, f4, f5, f6, f7]

/-- The crafted subreport bytes. -/
def c7buf (t0 t1 s1 s2 s3 f0 f1 f2 f3 f4 f5 f6 f7 : Nat) : List Nat :=
  c7mini t0 t1 ++ c7tail s1 s2 s3 f0 f1 f2 f3 f4 f5 f6 f7

/-- The parameter dictionary declared by the crafted mini parameter block. -/
def c7info (t00 : Int) : List (String × PVal) :=
  [("nco", .intVal 2), ("nln", .intVal 1), ("siz", .intVal 104), ("src", .intVal 11),
   ("f00", .intVal 0), ("f01", .intVal 3), ("t00", .intVal t00), ("t01", .intVal 4)]

/-- Helper: the crafted mini parameter block parses to `c7info` whatever the
(unscanned) data row holds, via the append lemmas. -/
theorem c7_params (t0 t1 : Nat) (t00 : Int)
    (hbase : paramsScan (c7mini t0 t1) 100 0 [] true = some (.ok (c7info t00, true)))
    (s1 s2 s3 f0 f1 f2 f3 f4 f5 f6 f7 : Nat) :
    parse_params (c7buf t0 t1 s1 s2 s3 f0 f1 f2 f3 f4 f5 f6 f7)
      = some (.ok (c7info t00)) := by
  have happ := paramsScan_append (c7mini t0 t1)
    (c7tail s1 s2 s3 f0 f1 f2 f3 f4 f5 f6 f7) 100 0 [] true _ hbase
  have hmono := paramsScan_mono (c7buf t0 t1 s1 s2 s3 f0 f1 f2 f3 f4 f5 f6 f7) 100
    ((c7buf t0 t1 s1 s2 s3 f0 f1 f2 f3 f4 f5 f6 f7).length + 1)
    (by simp [c7buf, c7mini, c7tail]) 0 [] true _ happ
  unfold parse_params
  rw [hmono]
  rfl

/-- Helper: the three-byte string cell of the crafted subreport decodes to
the latin-1 string of its bytes (no NUL among them, all in bounds). -/
theorem c7_decode (t0 t1 s1 s2 s3 f0 f1 f2 f3 f4 f5 f6 f7 : Nat)
    (h1 : s1 ≠ 0) (h2 : s2 ≠ 0) (h3 : s3 ≠ 0) :
    decode_str 3 (c7buf t0 t1 s1 s2 s3 f0 f1 f2 f3 f4 f5 f6 f7) 104 = latin1 [s1, s2, s3] := by
  unfold decode_str
  rw [if_pos ⟨by norm_num, by norm_num, by simp [c7buf, c7mini, c7tail]⟩]
  show latin1 ([s1, s2, s3].takeWhile fun c => !(c == 0)) = latin1 [s1, s2, s3]
  rw [List.takeWhile_cons_of_pos (by simp [h1]), List.takeWhile_cons_of_pos (by simp [h2]),
    List.takeWhile_cons_of_pos (by simp [h3])]
  rfl

/-- C7: a crafted subreport declaring `nco = 2`, `nln = 1`, a string first
column (`t00 = 1003`, declared length 3) and a float64 second column decodes
to exactly one row whose first cell is the three-character string read at
`siz + f00` and whose second cell is the float (bit pattern) read at
`siz + f01`; with an over-declared string width (`t00 = 1010`) the read is
clamped to the next column's offset (`min(t00 - 1000, f01 - f00) = 3`), so
the same three characters are returned and no out-of-bounds read occurs. -/
theorem parse_subreport_crafted (s1 s2 s3 f0 f1 f2 f3 f4 f5 f6 f7 : Nat)
    (h1 : s1 ≠ 0) (h2 : s2 ≠ 0) (h3 : s3 ≠ 0) :
    parse_subreport (c7buf 235 3 s1 s2 s3 f0 f1 f2 f3 f4 f5 f6 f7)
      = some (.ok (c7info 1003,
          [[CellVal.strVal (latin1 [s1, s2, s3]),
            CellVal.f64Val (f0 + 256 * f1 + 2 ^ 16 * f2 + 2 ^ 24 * f3
              + 2 ^ 32 * (f4 + 256 * f5 + 2 ^ 16 * f6 + 2 ^ 24 * f7))]]))
    ∧ parse_subreport (c7buf 242 3 s1 s2 s3 f0 f1 f2 f3 f4 f5 f6 f7)
      = some (.ok (c7info 1010,
          [[CellVal.strVal (latin1 [s1, s2, s3]),
            CellVal.f64Val (f0 + 256 * f1 + 2 ^ 16 * f2 + 2 ^ 24 * f3
              + 2 ^ 32 * (f4 + 256 * f5 + 2 ^ 16 * f6 + 2 ^ 24 * f7))]])) := by
  constructor
  · have hpp := c7_params 235 3 1003 rfl s1 s2 s3 f0 f1 f2 f3 f4 f5 f6 f7
    have hfold : parse_subreport (c7buf 235 3 s1 s2 s3 f0 f1 f2 f3 f4 f5 f6 f7)
        = some (.ok (c7info 1003,
            [[CellVal.strVal (decode_str 3 (c7buf 235 3 s1 s2 s3 f0 f1 f2 f3 f4 f5 f6 f7) 104),
              CellVal.f64Val (f0 + 256 * f1 + 2 ^ 16 * f2 + 2 ^ 24 * f3
                + 2 ^ 32 * (f4 + 256 * f5 + 2 ^ 16 * f6 + 2 ^ 24 * f7))]])) := by
      unfold parse_subreport
      rw [hpp]
      rfl
    rw [hfold, c7_decode 235 3 s1 s2 s3 f0 f1 f2 f3 f4 f5 f6 f7 h1 h2 h3]
  · have hpp := c7_params 242 3 1010 rfl s1 s2 s3 f0 f1 f2 f3 f4 f5 f6 f7
    have hfold : parse_subreport (c7buf 242 3 s1 s2 s3 f0 f1 f2 f3 f4 f5 f6 f7)
        = some (.ok (c7info 1010,
            [[CellVal.strVal (decode_str 3 (c7buf 242 3 s1 s2 s3 f0 f1 f2 f3 f4 f5 f6 f7) 104),
              CellVal.f64Val (f0 + 256 * f1 + 2 ^ 16 * f2 + 2 ^ 24 * f3
                + 2 ^ 32 * (f4 + 256 * f5 + 2 ^ 16 * f6 + 2 ^ 24 * f7))]])) := by
      unfold parse_subreport
      rw [hpp]
      rfl
    rw [hfold, c7_decode 242 3 s1 s2 s3 f0 f1 f2 f3 f4 f5 f6 f7 h1 h2 h3]

/-- Witness for C7 at the concrete string `abc` (bytes 97, 98, 99) and float
bytes 1 through 8. -/
theorem parse_subreport_crafted_witness :
    parse_subreport (c7buf 235 3 97 98 99 1 2 3 4 5 6 7 8)
      = some (.ok (c7info 1003,
          [[CellVal.strVal (latin1 [97, 98, 99]),
            CellVal.f64Val (1 + 256 * 2 + 2 ^ 16 * 3 + 2 ^ 24 * 4
              + 2 ^ 32 * (5 + 256 * 6 + 2 ^ 16 * 7 + 2 ^ 24 * 8))]]))
    ∧ parse_subreport (c7buf 242 3 97 98 99 1 2 3 4 5 6 7 8)
      = some (.ok (c7info 1010,
          [[CellVal.strVal (latin1 [97, 98, 99]),
            CellVal.f64Val (1 + 256 * 2 + 2 ^ 16 * 3 + 2 ^ 24 * 4
              + 2 ^ 32 * (5 + 256 * 6 + 2 ^ 16 * 7 + 2 ^ 24 * 8))]])) :=
  parse_subreport_crafted 97 98 99 1 2 3 4 5 6 7 8 (by decide) (by decide) (by decide)
